import Mathlib

/-!
# Verification of the simulated single-volume filesystem

Shallow embedding of the Python sources (`src/vfs/superblock.py`, `src/vfs/disk.py`,
`src/vfs/inode.py`, `src/vfs/filesystem.py`, `src/vfs/main.py`) and proofs about them.

Modelling conventions:
* Python `str` values (payloads, names, paths) are modelled as `List Char`, written
  `"...".toList` at concrete instances; the inode `type` tag (`"file"` / `"dir"`) is
  kept as `String`.  The `str` methods the source relies on (`strip`, `split`,
  `startswith`) are translated to structural functions below.
* Python exceptions are modelled by the error kind `Err`; `RuntimeError` raised by the
  allocator is modelled by `Option` results (the only callers catch it immediately).
* Python dictionaries (`Inode.children`) are modelled as insertion-ordered association
  lists with unique keys, exactly the representation a `dict` maintains.
* `time.time()` timestamps are opaque data the core never interprets; they are
  modelled as the constant `0`.
* Python objects returned by `Disk.read_inode` are live references: in-place mutation
  of a fetched inode is visible in storage immediately, and the subsequent
  `write_inode` of the same reference is idempotent.  The embedding therefore applies
  each in-place mutation to the disk state at the program point where it occurs.
-/

namespace VFS

/-- Error kinds: the `FSException` subclasses of `filesystem.py` plus the built-in
Python exceptions the code can raise. -/
inductive Err where
  | fileNotFound
  | fileExists
  | notADirectory
  | isADirectory
  | directoryNotEmpty
  | diskFull
  | fsError
  | indexError
  | valueError
  | attributeError
  | keyError
  | typeError
  | zeroDivisionError
  | outOfFuel
deriving DecidableEq, Repr

deriving instance DecidableEq for Except

/-- A Python string: a list of characters. -/
abbrev Str := List Char

/-- Python `str.strip()` ingredient: the whitespace characters it removes. -/
def isPySpace (c : Char) : Bool :=
  c = ' ' ∨ c = '\t' ∨ c = '\n' ∨ c = '\r' ∨ c = '\x0b' ∨ c = '\x0c'

/-- Python `str.strip()`: drop whitespace from both ends. -/
def stripChars (s : Str) : Str :=
  ((s.dropWhile isPySpace).reverse.dropWhile isPySpace).reverse

/-- Helper for `splitSlash`: accumulates the current segment in reverse. -/
def splitSlashAux : Str → Str → List Str
  | [], cur => [cur.reverse]
  | c :: rest, cur =>
    if c = '/' then cur.reverse :: splitSlashAux rest []
    else splitSlashAux rest (c :: cur)

/-- Python `str.split("/")`: `"" ↦ [""]`, `"/a" ↦ ["", "a"]`, `"a//b" ↦ ["a", "", "b"]`. -/
def splitSlash (s : Str) : List Str := splitSlashAux s []

/-- Python `path.startswith("/")`. -/
def startsWithSlash : Str → Bool
  | '/' :: _ => true
  | _ => false

/-- `children[k]` lookup in a Python dict modelled as an association list. -/
def dictFind? : List (Str × Nat) → Str → Option Nat
  | [], _ => none
  | (k', v) :: rest, k => if k' = k then some v else dictFind? rest k

/-- `children[k] = v`: update in place if the key exists, else append (Python dict
insertion order). -/
def dictInsert : List (Str × Nat) → Str → Nat → List (Str × Nat)
  | [], k, v => [(k, v)]
  | (k', v') :: rest, k, v =>
    if k' = k then (k, v) :: rest else (k', v') :: dictInsert rest k v

/-- `del children[k]`: removes the (unique) occurrence of the key. -/
def dictErase : List (Str × Nat) → Str → List (Str × Nat)
  | [], _ => []
  | (k', v') :: rest, k => if k' = k then rest else (k', v') :: dictErase rest k

/-- `inode.py`: an inode record.  `type` is the string `"file"` or `"dir"` as in the
source. -/
structure Inode where
  name : Str
  type : String
  parent : Option Nat
  size : Nat
  blocks : List Nat
  children : List (Str × Nat)
  created : Nat
  modified : Nat
  permissions : Nat
deriving DecidableEq, Repr

/-- `Inode.__init__`: `0o755 = 493` for directories, `0o644 = 420` for files;
timestamps modelled as `0`. -/
def Inode.new (name : Str) (type : String) (parent : Option Nat) : Inode :=
  { name := name, type := type, parent := parent, size := 0, blocks := [],
    children := [], created := 0, modified := 0,
    permissions := if type = "dir" then 493 else 420 }

/-- `superblock.py`: allocator state. -/
structure SuperBlock where
  max_inodes : Nat
  max_blocks : Nat
  free_inodes : List Bool
  free_blocks : List Bool
  block_size : Nat
deriving DecidableEq, Repr

/-- `SuperBlock.__init__`. -/
def SuperBlock.new (max_inodes : Nat) (max_blocks : Nat) (block_size : Nat) :
    SuperBlock :=
  { max_inodes := max_inodes, max_blocks := max_blocks,
    free_inodes := List.replicate max_inodes true,
    free_blocks := List.replicate max_blocks true,
    block_size := block_size }

/-- The linear scan of `alloc_inode` / `alloc_block`: first `true` slot in ascending
index order, marked used.  `none` models the `RuntimeError` raised when no slot is
free.  The Python loop runs `for i in range(max)` over a list whose length is always
`max` (the lists are created with that length and never resized), which this
structural scan reproduces. -/
def allocScan : List Bool → Option (Nat × List Bool)
  | [] => none
  | true :: rest => some (0, false :: rest)
  | false :: rest =>
    match allocScan rest with
    | some (i, rest') => some (i + 1, false :: rest')
    | none => none

/-- `SuperBlock.alloc_inode`. -/
def SuperBlock.alloc_inode (sb : SuperBlock) : Option (Nat × SuperBlock) :=
  (allocScan sb.free_inodes).map fun p => (p.1, { sb with free_inodes := p.2 })

/-- `SuperBlock.alloc_block`. -/
def SuperBlock.alloc_block (sb : SuperBlock) : Option (Nat × SuperBlock) :=
  (allocScan sb.free_blocks).map fun p => (p.1, { sb with free_blocks := p.2 })

/-- `SuperBlock.free_inode`: silently ignores out-of-range ids. -/
def SuperBlock.free_inode (sb : SuperBlock) (i : Nat) : SuperBlock :=
  if i < sb.max_inodes then { sb with free_inodes := sb.free_inodes.set i true }
  else sb

/-- `SuperBlock.free_block`: silently ignores out-of-range ids. -/
def SuperBlock.free_block (sb : SuperBlock) (i : Nat) : SuperBlock :=
  if i < sb.max_blocks then { sb with free_blocks := sb.free_blocks.set i true }
  else sb

/-- `SuperBlock.get_free_inode_count`: `sum(self.free_inodes)`. -/
def SuperBlock.get_free_inode_count (sb : SuperBlock) : Nat :=
  sb.free_inodes.count true

/-- `SuperBlock.get_free_block_count`: `sum(self.free_blocks)`. -/
def SuperBlock.get_free_block_count (sb : SuperBlock) : Nat :=
  sb.free_blocks.count true

/-- `disk.py`: slot store for inode records and block payloads. -/
structure Disk where
  superblock : SuperBlock
  inodes : List (Option Inode)
  blocks : List (List Char)
deriving DecidableEq, Repr

/-- `Disk.__init__`. -/
def Disk.new (sb : SuperBlock) : Disk :=
  { superblock := sb,
    inodes := List.replicate sb.max_inodes none,
    blocks := List.replicate sb.max_blocks [] }

/-- `Disk.read_inode`: bounds check against `max_inodes`, then index the list (a
second `IndexError` if the list is shorter than `max_inodes`). -/
def Disk.read_inode (d : Disk) (i : Nat) : Except Err (Option Inode) :=
  if i < d.superblock.max_inodes then
    match d.inodes.get? i with
    | some v => .ok v
    | none => .error .indexError
  else .error .indexError

/-- `Disk.write_inode`. -/
def Disk.write_inode (d : Disk) (i : Nat) (v : Option Inode) : Except Err Disk :=
  if i < d.superblock.max_inodes then
    match d.inodes.get? i with
    | some _ => .ok { d with inodes := d.inodes.set i v }
    | none => .error .indexError
  else .error .indexError

/-- `Disk.read_block`. -/
def Disk.read_block (d : Disk) (i : Nat) : Except Err (List Char) :=
  if i < d.superblock.max_blocks then
    match d.blocks.get? i with
    | some v => .ok v
    | none => .error .indexError
  else .error .indexError

/-- `Disk.write_block`: bounds check against `max_blocks` (`IndexError`), then the
size guard (`ValueError`), then the list assignment (a second possible
`IndexError`). -/
def Disk.write_block (d : Disk) (i : Nat) (data : List Char) : Except Err Disk :=
  if i < d.superblock.max_blocks then
    if data.length > d.superblock.block_size then .error .valueError
    else
      match d.blocks.get? i with
      | some _ => .ok { d with blocks := d.blocks.set i data }
      | none => .error .indexError
  else .error .indexError

/-- In-place mutation of an inode object fetched from slot `i` (Python aliasing:
the fetched object is the stored object, so the mutation needs no bounds check). -/
def Disk.setSlot (d : Disk) (i : Nat) (v : Inode) : Disk :=
  { d with inodes := d.inodes.set i (some v) }

/-- `filesystem.py`: the namespace engine: a disk plus the `cwd` cursor. -/
structure FileSystem where
  disk : Disk
  cwd : Nat
deriving DecidableEq, Repr

/-- The segment loop of `FileSystem._resolve`. -/
def resolveLoop (d : Disk) : Nat → List Str → Except Err Nat
  | curr, [] => .ok curr
  | curr, part :: rest =>
    if part = [] ∨ part = ['.'] then resolveLoop d curr rest
    else if part = ['.', '.'] then
      match d.read_inode curr with
      | .error e => .error e
      | .ok none => .error .attributeError
      | .ok (some ino) => resolveLoop d (ino.parent.getD 0) rest
    else
      match d.read_inode curr with
      | .error e => .error e
      | .ok none => .error .attributeError
      | .ok (some ino) =>
        if ino.type ≠ "dir" then .error .notADirectory
        else
          match dictFind? ino.children part with
          | none => .error .fileNotFound
          | some child => resolveLoop d child rest

/-- `FileSystem._resolve`: `"/"` is root; otherwise split `path.strip()` on `/`,
starting from root for absolute paths and from `cwd` otherwise.  `..` moves to
`inode.parent or 0` (root's parent `None` becomes `0`). -/
def FileSystem.resolve (fs : FileSystem) (path : Str) : Except Err Nat :=
  if path = ['/'] then .ok 0
  else
    resolveLoop fs.disk (if startsWithSlash path then 0 else fs.cwd)
      (splitSlash (stripChars path))

/-- `FileSystem.mkdir`: the returned state reflects every mutation performed before a
possible exception (alias semantics: `parent.children[name] = inode_id` hits the
stored parent before the `write_inode` calls). -/
def FileSystem.mkdir (fs : FileSystem) (name : Str) : FileSystem × Option Err :=
  match fs.disk.read_inode fs.cwd with
  | .error e => (fs, some e)
  | .ok none => (fs, some .attributeError)
  | .ok (some parent) =>
    if parent.type ≠ "dir" then (fs, some .notADirectory)
    else if '/' ∈ name ∨ name = [] ∨ name = ['.'] ∨ name = ['.', '.'] then
      (fs, some .fsError)
    else if (dictFind? parent.children name).isSome then (fs, some .fileExists)
    else
      match fs.disk.superblock.alloc_inode with
      | none => (fs, some .diskFull)
      | some (inode_id, sb') =>
        let ino := Inode.new name "dir" (some fs.cwd)
        let parent' :=
          { parent with children := dictInsert parent.children name inode_id }
        let d₁ := Disk.setSlot { fs.disk with superblock := sb' } fs.cwd parent'
        match d₁.write_inode inode_id (some ino) with
        | .error e => ({ fs with disk := d₁ }, some e)
        | .ok d₂ =>
          match d₂.write_inode fs.cwd (some parent') with
          | .error e => ({ fs with disk := d₂ }, some e)
          | .ok d₃ => ({ fs with disk := d₃ }, none)

/-- `FileSystem.create`: identical to `mkdir` except the inode kind is `"file"`. -/
def FileSystem.create (fs : FileSystem) (name : Str) : FileSystem × Option Err :=
  match fs.disk.read_inode fs.cwd with
  | .error e => (fs, some e)
  | .ok none => (fs, some .attributeError)
  | .ok (some parent) =>
    if parent.type ≠ "dir" then (fs, some .notADirectory)
    else if '/' ∈ name ∨ name = [] ∨ name = ['.'] ∨ name = ['.', '.'] then
      (fs, some .fsError)
    else if (dictFind? parent.children name).isSome then (fs, some .fileExists)
    else
      match fs.disk.superblock.alloc_inode with
      | none => (fs, some .diskFull)
      | some (inode_id, sb') =>
        let ino := Inode.new name "file" (some fs.cwd)
        let parent' :=
          { parent with children := dictInsert parent.children name inode_id }
        let d₁ := Disk.setSlot { fs.disk with superblock := sb' } fs.cwd parent'
        match d₁.write_inode inode_id (some ino) with
        | .error e => ({ fs with disk := d₁ }, some e)
        | .ok d₂ =>
          match d₂.write_inode fs.cwd (some parent') with
          | .error e => ({ fs with disk := d₂ }, some e)
          | .ok d₃ => ({ fs with disk := d₃ }, none)

/-- `FileSystem.ls`. -/
def FileSystem.ls (fs : FileSystem) : Except Err (List Str) :=
  match fs.disk.read_inode fs.cwd with
  | .error e => .error e
  | .ok none => .error .attributeError
  | .ok (some ino) =>
    if ino.type ≠ "dir" then .error .notADirectory
    else .ok (ino.children.map Prod.fst)

/-- `FileSystem.cd`: the cursor is updated only on success. -/
def FileSystem.cd (fs : FileSystem) (path : Str) : FileSystem × Option Err :=
  match fs.resolve path with
  | .error e => (fs, some e)
  | .ok inode_id =>
    match fs.disk.read_inode inode_id with
    | .error e => (fs, some e)
    | .ok none => (fs, some .attributeError)
    | .ok (some ino) =>
      if ino.type ≠ "dir" then (fs, some .notADirectory)
      else ({ fs with cwd := inode_id }, none)

/-- Fuel-structural helper for `chunksOf`: each iteration consumes at least one
character, so any fuel of at least `data.length` gives the full chunking (the
fuel-exhausted case is then unreachable). -/
def chunksOfFuel : Nat → Nat → List Char → List (List Char)
  | _, _, [] => []
  | _, 0, _ :: _ => []
  | 0, _ + 1, _ :: _ => []
  | fuel + 1, bs + 1, c :: cs =>
    ((c :: cs).take (bs + 1)) :: chunksOfFuel fuel (bs + 1) ((c :: cs).drop (bs + 1))

/-- The chunking of `for i in range(0, len(data), block_size)`: consecutive pieces of
at most `block_size` characters.  The `block_size = 0` case is unreachable from
`FileSystem.write`, which raises `ZeroDivisionError` before the loop. -/
def chunksOf (bs : Nat) (data : List Char) : List (List Char) :=
  chunksOfFuel data.length bs data

/-- The allocation loop of `FileSystem.write` (lines 158-170): allocate a block,
write the chunk, append the block id to the inode's list; on an allocation failure
free every block allocated so far in this call, clear the list, and fail `DiskFull`.
Every exit stores the current inode value in its slot (alias semantics). -/
def writeLoop (inode_id : Nat) :
    Disk → Inode → List (List Char) → Disk × Inode × Option Err
  | d, ino, [] => (d, ino, none)
  | d, ino, chunk :: rest =>
    match d.superblock.alloc_block with
    | none =>
      let sb' := ino.blocks.foldl SuperBlock.free_block d.superblock
      let ino' := { ino with blocks := [] }
      (Disk.setSlot { d with superblock := sb' } inode_id ino', ino', some .diskFull)
    | some (b, sb') =>
      let d₁ := { d with superblock := sb' }
      match d₁.write_block b chunk with
      | .error e => (d₁.setSlot inode_id ino, ino, some e)
      | .ok d₂ =>
        let ino' := { ino with blocks := ino.blocks ++ [b] }
        writeLoop inode_id d₂ ino' rest

/-- `FileSystem.write`: frees the file's current blocks, then pre-checks the free
block count, then allocates and writes chunk by chunk.  All in-place mutations of
the fetched inode are applied to its slot at the point they occur. -/
def FileSystem.write (fs : FileSystem) (name : Str) (data : List Char) :
    FileSystem × Option Err :=
  match fs.resolve name with
  | .error e => (fs, some e)
  | .ok inode_id =>
    match fs.disk.read_inode inode_id with
    | .error e => (fs, some e)
    | .ok none => (fs, some .attributeError)
    | .ok (some ino) =>
      if ino.type ≠ "file" then (fs, some .isADirectory)
      else
        let sb₀ := ino.blocks.foldl SuperBlock.free_block fs.disk.superblock
        let ino₁ := { ino with blocks := [] }
        let d₁ := Disk.setSlot { fs.disk with superblock := sb₀ } inode_id ino₁
        if sb₀.block_size = 0 then ({ fs with disk := d₁ }, some .zeroDivisionError)
        else if (data.length + sb₀.block_size - 1) / sb₀.block_size >
            sb₀.get_free_block_count then
          ({ fs with disk := d₁ }, some .diskFull)
        else
          match writeLoop inode_id d₁ ino₁ (chunksOf sb₀.block_size data) with
          | (d₂, _, some e) => ({ fs with disk := d₂ }, some e)
          | (d₂, ino₂, none) =>
            let ino₃ := { ino₂ with size := data.length, modified := 0 }
            let d₃ := d₂.setSlot inode_id ino₃
            match d₃.write_inode inode_id (some ino₃) with
            | .error e => ({ fs with disk := d₃ }, some e)
            | .ok d₄ => ({ fs with disk := d₄ }, none)

/-- The accumulation loop of `FileSystem.read`: `content += read_block(b)`. -/
def readBlocksAcc (d : Disk) : List Nat → List Char → Except Err (List Char)
  | [], acc => .ok acc
  | b :: rest, acc =>
    match d.read_block b with
    | .error e => .error e
    | .ok s => readBlocksAcc d rest (acc ++ s)

/-- `FileSystem.read`. -/
def FileSystem.read (fs : FileSystem) (name : Str) : Except Err (List Char) :=
  match fs.resolve name with
  | .error e => .error e
  | .ok inode_id =>
    match fs.disk.read_inode inode_id with
    | .error e => .error e
    | .ok none => .error .attributeError
    | .ok (some ino) =>
      if ino.type ≠ "file" then .error .isADirectory
      else readBlocksAcc fs.disk ino.blocks []

/-- The `while curr != 0` loop of `FileSystem.pwd`, with fuel modelling the
unbounded Python loop.  A `None` parent makes the next iteration raise
`TypeError` (`read_inode(None)` compares `0 <= None`). -/
def pwdLoop (d : Disk) : Nat → Nat → List Str → Except Err (List Str)
  | 0, _, _ => .error .outOfFuel
  | fuel + 1, curr, parts =>
    if curr = 0 then .ok parts
    else
      match d.read_inode curr with
      | .error e => .error e
      | .ok none => .error .attributeError
      | .ok (some ino) =>
        match ino.parent with
        | none => .error .typeError
        | some p => pwdLoop d fuel p (parts ++ [ino.name])

/-- `FileSystem.pwd`: collect names walking `parent` links, reverse, join:
`"/" + "/".join(reversed(parts))`. -/
def FileSystem.pwd (fs : FileSystem) (fuel : Nat) : Except Err Str :=
  match pwdLoop fs.disk fuel fs.cwd [] with
  | .error e => .error e
  | .ok parts => .ok ('/' :: List.intercalate ['/'] parts.reverse)

/-- The dictionary returned by `FileSystem.stat` (`permissions` is kept as the
number; the source renders it with `oct`). -/
structure StatInfo where
  name : Str
  type : String
  size : Nat
  blocks : Nat
  created : Nat
  modified : Nat
  permissions : Nat
deriving DecidableEq, Repr

/-- `FileSystem.stat`. -/
def FileSystem.stat (fs : FileSystem) (path : Str) : Except Err StatInfo :=
  match fs.resolve path with
  | .error e => .error e
  | .ok inode_id =>
    match fs.disk.read_inode inode_id with
    | .error e => .error e
    | .ok none => .error .attributeError
    | .ok (some ino) =>
      .ok ⟨ino.name, ino.type, ino.size, ino.blocks.length, ino.created,
        ino.modified, ino.permissions⟩

/-- The dictionary returned by `FileSystem.du`. -/
structure DuInfo where
  total_inodes : Nat
  free_inodes : Nat
  used_inodes : Nat
  total_blocks : Nat
  free_blocks : Nat
  used_blocks : Nat
  block_size : Nat
deriving DecidableEq, Repr

/-- `FileSystem.du`. -/
def FileSystem.du (fs : FileSystem) : DuInfo :=
  { total_inodes := fs.disk.superblock.max_inodes,
    free_inodes := fs.disk.superblock.get_free_inode_count,
    used_inodes :=
      fs.disk.superblock.max_inodes - fs.disk.superblock.get_free_inode_count,
    total_blocks := fs.disk.superblock.max_blocks,
    free_blocks := fs.disk.superblock.get_free_block_count,
    used_blocks :=
      fs.disk.superblock.max_blocks - fs.disk.superblock.get_free_block_count,
    block_size := fs.disk.superblock.block_size }

/-- The `for child_id in list(inode.children.values())` loop of `_rm_recursive`
(the `list(...)` snapshot is taken before any mutation), abstracted over the
recursive call so that `rmRecursive` is structurally recursive on its fuel. -/
def rmChildren (rec : Disk → Nat → Disk × Option Err) :
    Disk → List Nat → Disk × Option Err
  | d, [] => (d, none)
  | d, c :: cs =>
    match rec d c with
    | (d', some e) => (d', some e)
    | (d', none) => rmChildren rec d' cs

/-- `FileSystem._rm_recursive`, with fuel modelling Python's unbounded call stack:
any fuel exceeding the subtree height gives the defined behaviour.  The Python
`inode` variable is a live reference, so after the child recursion the slot is
re-read to obtain the current field values (the recursion shrinks this very
inode's `children` map when the children detach themselves). -/
def rmRecursive : Nat → Disk → Nat → Disk × Option Err
  | 0, d, _ => (d, some .outOfFuel)
  | fuel + 1, d, inode_id =>
    match d.read_inode inode_id with
    | .error e => (d, some e)
    | .ok none => (d, some .attributeError)
    | .ok (some ino) =>
      match
        if ino.type = "dir" then
          rmChildren (rmRecursive fuel) d (ino.children.map Prod.snd)
        else (d, none) with
      | (d₁, some e) => (d₁, some e)
      | (d₁, none) =>
        match d₁.read_inode inode_id with
        | .error e => (d₁, some e)
        | .ok none => (d₁, some .attributeError)
        | .ok (some ino₁) =>
          let d₂ :=
            { d₁ with
              superblock := ino₁.blocks.foldl SuperBlock.free_block d₁.superblock }
          let fin : Disk → Disk × Option Err := fun d₃ =>
            let d₄ :=
              { d₃ with superblock := d₃.superblock.free_inode inode_id }
            match d₄.write_inode inode_id none with
            | .error e => (d₄, some e)
            | .ok d₅ => (d₅, none)
          match ino₁.parent with
          | none => fin d₂
          | some p =>
            match d₂.read_inode p with
            | .error e => (d₂, some e)
            | .ok none => fin d₂
            | .ok (some par) =>
              if (dictFind? par.children ino₁.name).isSome then
                let par' :=
                  { par with children := dictErase par.children ino₁.name }
                let d₃ := d₂.setSlot p par'
                match d₃.write_inode p (some par') with
                | .error e => (d₃, some e)
                | .ok d₄ => fin d₄
              else fin d₂

/-- `FileSystem.rm`. -/
def FileSystem.rm (fs : FileSystem) (fuel : Nat) (path : Str)
    (recursive : Bool) : FileSystem × Option Err :=
  match fs.resolve path with
  | .error e => (fs, some e)
  | .ok inode_id =>
    if inode_id = 0 ∨ path = ['/'] then (fs, some .fsError)
    else
      match fs.disk.read_inode inode_id with
      | .error e => (fs, some e)
      | .ok none => (fs, some .attributeError)
      | .ok (some ino) =>
        if ino.type = "dir" ∧ ino.children ≠ [] ∧ recursive = false then
          (fs, some .directoryNotEmpty)
        else if recursive then
          match rmRecursive fuel fs.disk inode_id with
          | (d', e) => ({ fs with disk := d' }, e)
        else
          let d₁ :=
            { fs.disk with
              superblock := ino.blocks.foldl SuperBlock.free_block
                fs.disk.superblock }
          let fin : Disk → FileSystem × Option Err := fun d₂ =>
            let d₃ := { d₂ with superblock := d₂.superblock.free_inode inode_id }
            match d₃.write_inode inode_id none with
            | .error e => ({ fs with disk := d₃ }, some e)
            | .ok d₄ => ({ fs with disk := d₄ }, none)
          match ino.parent with
          | none => ({ fs with disk := d₁ }, some .typeError)
          | some p =>
            match d₁.read_inode p with
            | .error e => ({ fs with disk := d₁ }, some e)
            | .ok none => fin d₁
            | .ok (some par) =>
              match dictFind? par.children ino.name with
              | none => ({ fs with disk := d₁ }, some .keyError)
              | some _ =>
                let par' := { par with children := dictErase par.children ino.name }
                let d₂ := d₁.setSlot p par'
                match d₂.write_inode p (some par') with
                | .error e => ({ fs with disk := d₂ }, some e)
                | .ok d₃ => fin d₃

/-- `main.init_filesystem` generalized over the `SuperBlock.__init__` configuration
parameters: write the root inode to slot 0 (in range whenever `max_inodes > 0`) and
mark slot 0 used by direct list assignment. -/
def initVolume (max_inodes max_blocks block_size : Nat) : FileSystem :=
  let d := Disk.new (SuperBlock.new max_inodes max_blocks block_size)
  let d₁ := { d with inodes := d.inodes.set 0 (some (Inode.new ['/'] "dir" none)) }
  let d₂ :=
    { d₁ with
      superblock :=
        { d₁.superblock with
          free_inodes := d₁.superblock.free_inodes.set 0 false } }
  { disk := d₂, cwd := 0 }

/-- `main.init_filesystem` with the default configuration (64 inodes, 256 blocks,
block size 32). -/
def init_filesystem : FileSystem := initVolume 64 256 32

/-! ## Concrete volumes used by counterexamples and witnesses -/

/-- A 4-inode / 2-block / block-size-4 volume with one directory `d` under root. -/
def c5fs : FileSystem := ((initVolume 4 2 4).mkdir "d".toList).1

/-- `c5fs` with a subdirectory `e` inside `d`, cursor back at root. -/
def c5fs2 : FileSystem :=
  (((((c5fs.cd "d".toList).1.mkdir "e".toList).1).cd "/".toList).1)

/-- The root inode of `c5fs` as stored after `mkdir "d"`. -/
def c5root : Inode :=
  { name := ['/'], type := "dir", parent := none, size := 0, blocks := [],
    children := [("d".toList, 1)], created := 0, modified := 0, permissions := 493 }

/-- An 8-inode volume with the tree `/a/b/c` (ids 1, 2, 3), cursor at root. -/
def c6fs : FileSystem :=
  let s1 := ((initVolume 8 4 4).mkdir "a".toList).1
  let s2 := (s1.cd "a".toList).1
  let s3 := (s2.mkdir "b".toList).1
  let s4 := (s3.cd "b".toList).1
  let s5 := (s4.mkdir "c".toList).1
  (s5.cd "/".toList).1

/-- The root inode of `c6fs`. -/
def c6rootIno : Inode :=
  { name := ['/'], type := "dir", parent := none, size := 0, blocks := [],
    children := [("a".toList, 1)], created := 0, modified := 0, permissions := 493 }

/-- 4-inode / 2-block volume with file `/f` holding one block (`"abcd"`). -/
def c1fs : FileSystem :=
  ((((initVolume 4 2 4).create "f".toList).1).write "/f".toList "abcd".toList).1

/-- `c1fs` after overwriting `/f` with two blocks (`"abcdefgh"`): no free blocks. -/
def c2fs : FileSystem := (c1fs.write "/f".toList "abcdefgh".toList).1

/-- 4-inode / 2-block volume with an empty file `/f`. -/
def c3fs : FileSystem := ((initVolume 4 2 4).create "f".toList).1

/-- `c5fs` with the cursor moved into `/d`. -/
def c10fs : FileSystem := (c5fs.cd "d".toList).1

/-- 8-inode / 4-block volume: directory `/d` (id 1) containing file `f` (id 2)
holding one block (id 0), cursor at root. -/
def c4fs : FileSystem :=
  let s1 := ((initVolume 8 4 4).mkdir "d".toList).1
  let s2 := (s1.cd "d".toList).1
  let s3 := (s2.create "f".toList).1
  let s4 := (s3.write "f".toList "abcd".toList).1
  (s4.cd "/".toList).1

/-! ## Definitions used by the claims' statements -/

/-- The part of a stored inode slot that `_resolve` inspects. -/
def inodeShape : Option Inode → Option (String × Option Nat × List (Str × Nat))
  | none => none
  | some ino => some (ino.type, ino.parent, ino.children)

/-- Allocator/storage synchronization invariant, together with the length facts
that keep it meaningful: inode slot `i` holds a record exactly when the allocator
marks `i` used. -/
def InodeSync (d : Disk) : Prop :=
  d.inodes.length = d.superblock.max_inodes ∧
  d.superblock.free_inodes.length = d.superblock.max_inodes ∧
  ∀ i < d.superblock.max_inodes,
    (d.inodes.getD i none).isSome = !(d.superblock.free_inodes.getD i true)

instance (d : Disk) : Decidable (InodeSync d) := by
  unfold InodeSync
  infer_instance

/-- The public operations of the namespace engine, as data. -/
inductive Op where
  | mkdirOp (name : Str)
  | createOp (name : Str)
  | cdOp (path : Str)
  | writeOp (path : Str) (data : List Char)
  | readOp (path : Str)
  | rmOp (path : Str) (recursive : Bool)
  | lsOp
  | pwdOp
  | statOp (path : Str)
  | duOp

/-- The volume state after one public operation (`fuel` bounds the recursion of
`rm -r`; `read`, `ls`, `pwd`, `stat` and `du` compute values without mutating the
volume, as their definitions show, so they return the state unchanged). -/
def applyOp (fuel : Nat) (fs : FileSystem) : Op → FileSystem
  | .mkdirOp name => (fs.mkdir name).1
  | .createOp name => (fs.create name).1
  | .cdOp path => (fs.cd path).1
  | .writeOp path data => (fs.write path data).1
  | .readOp _ => fs
  | .rmOp path r => (fs.rm fuel path r).1
  | .lsOp => fs
  | .pwdOp => fs
  | .statOp _ => fs
  | .duOp => fs

mutual
/-- An abstract description of a stored subtree: the root's inode id, the root's
block list, and the children subtrees. -/
inductive ITree where
  | node (id : Nat) (blocks : List Nat) (children : ITreeForest)
/-- A list of sibling subtrees. -/
inductive ITreeForest where
  | nil
  | cons (t : ITree) (ts : ITreeForest)
end

/-- The inode id at the root of a subtree. -/
def ITree.rootId : ITree → Nat
  | .node i _ _ => i

/-- Whether a forest is empty. -/
def ITreeForest.isNil : ITreeForest → Bool
  | .nil => true
  | .cons _ _ => false

mutual
/-- All inode ids in a subtree, root first. -/
def ITree.ids : ITree → List Nat
  | .node i _ cs => i :: ITreeForest.ids cs
/-- All inode ids in a forest. -/
def ITreeForest.ids : ITreeForest → List Nat
  | .nil => []
  | .cons t ts => t.ids ++ ITreeForest.ids ts
end

mutual
/-- All block ids held by files of a subtree. -/
def ITree.allBlocks : ITree → List Nat
  | .node _ bs cs => bs ++ ITreeForest.allBlocks cs
/-- All block ids held by files of a forest. -/
def ITreeForest.allBlocks : ITreeForest → List Nat
  | .nil => []
  | .cons t ts => t.allBlocks ++ ITreeForest.allBlocks ts
end

mutual
/-- Height of a subtree (a leaf has height 1). -/
def ITree.height : ITree → Nat
  | .node _ _ cs => ITreeForest.height cs + 1
/-- Height of a forest (an empty forest has height 0). -/
def ITreeForest.height : ITreeForest → Nat
  | .nil => 0
  | .cons t ts => max t.height (ITreeForest.height ts)
end

mutual
/-- `shapeTree d pid nm t`: the stored inodes match the abstract subtree `t`.  The
root slot holds an inode whose `parent` is `pid`, whose `name` is `nm` (the key
under which its parent's children map lists it) and whose `blocks` equal `t`'s
block list.  A directory has an empty block list, duplicate-free children keys,
and a children map aligned pairwise with the forest; a non-directory has an empty
forest. -/
def shapeTree (d : Disk) (pid : Nat) (nm : Str) : ITree → Bool
  | .node i bs cs =>
    match d.inodes.get? i with
    | some (some ino) =>
      decide (ino.blocks = bs) && decide (ino.parent = some pid) &&
        decide (ino.name = nm) &&
        (if ino.type = "dir" then
          decide (bs = []) && decide ((ino.children.map Prod.fst).Nodup) &&
            shapeForest d i ino.children cs
        else cs.isNil)
    | _ => false
/-- Pairwise alignment of a children map with a forest of subtrees. -/
def shapeForest (d : Disk) (pid : Nat) : List (Str × Nat) → ITreeForest → Bool
  | [], .nil => true
  | (k, j) :: rest, .cons t ts =>
    decide (t.rootId = j) && shapeTree d pid k t && shapeForest d pid rest ts
  | _, _ => false
end

/-- The abstract subtree of `/d` in `c4fs`: directory id 1 containing file id 2
with one block (id 0). -/
def c4tree : ITree := .node 1 [] (.cons (.node 2 [0] .nil) .nil)

/-- The effect of removing a subtree rooted under parent slot `pid`: superblock
configuration and list lengths are preserved; every subtree inode slot is
overwritten with `none` and its allocator bit freed; every block held by the
subtree is freed; the parent slot is rewritten to `parFinal`; everything else is
untouched. -/
def RmOut (d d' : Disk) (ids blocks : List Nat) (pid : Nat)
    (parFinal : Inode) : Prop :=
  d'.superblock.max_inodes = d.superblock.max_inodes ∧
  d'.superblock.max_blocks = d.superblock.max_blocks ∧
  d'.superblock.block_size = d.superblock.block_size ∧
  d'.inodes.length = d.inodes.length ∧
  d'.superblock.free_inodes.length = d.superblock.free_inodes.length ∧
  d'.superblock.free_blocks.length = d.superblock.free_blocks.length ∧
  (∀ j ∈ ids, d'.inodes.get? j = some none ∧
    d'.superblock.free_inodes.get? j = some true) ∧
  (∀ j, j ∉ ids → j ≠ pid → d'.inodes.get? j = d.inodes.get? j) ∧
  (∀ j, j ∉ ids → d'.superblock.free_inodes.get? j =
    d.superblock.free_inodes.get? j) ∧
  d'.inodes.get? pid = some (some parFinal) ∧
  (∀ b ∈ blocks, d'.superblock.free_blocks.get? b = some true) ∧
  (∀ b, b ∉ blocks → d'.superblock.free_blocks.get? b =
    d.superblock.free_blocks.get? b)

/-! ## Allocator lemmas -/

theorem allocScan_some {l : List Bool} {i : Nat} {l' : List Bool}
    (h : allocScan l = some (i, l')) :
    l.get? i = some true ∧ (∀ k, k < i → l.get? k = some false) ∧
      l' = l.set i false := by
  induction l generalizing i l' with
  | nil => simp [allocScan] at h
  | cons b rest ih =>
    cases b with
    | true =>
      simp [allocScan] at h
      obtain ⟨rfl, rfl⟩ := h
      exact ⟨rfl, fun k hk => absurd hk (Nat.not_lt_zero k), rfl⟩
    | false =>
      unfold allocScan at h
      cases hr : allocScan rest with
      | none => rw [hr] at h; simp at h
      | some p =>
        obtain ⟨j, rest'⟩ := p
        rw [hr] at h
        simp at h
        obtain ⟨rfl, rfl⟩ := h
        obtain ⟨h1, h2, h3⟩ := ih hr
        refine ⟨by simpa using h1, ?_, by simp [h3]⟩
        intro k hk
        cases k with
        | zero => simp
        | succ k => simpa using h2 k (by omega)

theorem allocScan_none {l : List Bool} :
    allocScan l = none ↔ ∀ b ∈ l, b = false := by
  induction l with
  | nil => simp [allocScan]
  | cons b rest ih =>
    cases b with
    | true => simp [allocScan]
    | false =>
      unfold allocScan
      cases hr : allocScan rest with
      | none => simpa using ih.mp hr
      | some p =>
        simp only [hr]
        constructor
        · intro h
          exact absurd h (by simp)
        · intro hall
          have hn : allocScan rest = none :=
            ih.mpr fun b hb => hall b (List.mem_cons_of_mem _ hb)
          rw [hr] at hn
          exact absurd hn (by simp)

/-- C7: `alloc_inode` / `alloc_block` return the lowest free index, mark exactly
that slot used and leave every other slot unchanged; they fail exactly when no slot
is free (the failure, modelled by `none`, leaves no state to change); and two
allocators with equal free sets hand out equal ids. -/
theorem alloc_lowest_free :
    (∀ sb i sb', SuperBlock.alloc_inode sb = some (i, sb') →
      sb.free_inodes.get? i = some true ∧
      (∀ k, k < i → sb.free_inodes.get? k = some false) ∧
      sb' = { sb with free_inodes := sb.free_inodes.set i false }) ∧
    (∀ sb, SuperBlock.alloc_inode sb = none ↔
      ∀ b ∈ sb.free_inodes, b = false) ∧
    (∀ sb i sb', SuperBlock.alloc_block sb = some (i, sb') →
      sb.free_blocks.get? i = some true ∧
      (∀ k, k < i → sb.free_blocks.get? k = some false) ∧
      sb' = { sb with free_blocks := sb.free_blocks.set i false }) ∧
    (∀ sb, SuperBlock.alloc_block sb = none ↔
      ∀ b ∈ sb.free_blocks, b = false) ∧
    (∀ sb₁ sb₂ : SuperBlock, sb₁.free_inodes = sb₂.free_inodes →
      Option.map Prod.fst sb₁.alloc_inode = Option.map Prod.fst sb₂.alloc_inode) ∧
    (∀ sb₁ sb₂ : SuperBlock, sb₁.free_blocks = sb₂.free_blocks →
      Option.map Prod.fst sb₁.alloc_block = Option.map Prod.fst sb₂.alloc_block) := by
  refine ⟨?_, ?_, ?_, ?_, ?_, ?_⟩
  · intro sb i sb' h
    unfold SuperBlock.alloc_inode at h
    cases hr : allocScan sb.free_inodes with
    | none => rw [hr] at h; simp at h
    | some p =>
      rw [hr] at h
      simp at h
      obtain ⟨rfl, rfl⟩ := h
      obtain ⟨h1, h2, h3⟩ := allocScan_some hr
      exact ⟨h1, h2, by rw [h3]⟩
  · intro sb
    unfold SuperBlock.alloc_inode
    rw [← allocScan_none]
    cases allocScan sb.free_inodes <;> simp
  · intro sb i sb' h
    unfold SuperBlock.alloc_block at h
    cases hr : allocScan sb.free_blocks with
    | none => rw [hr] at h; simp at h
    | some p =>
      rw [hr] at h
      simp at h
      obtain ⟨rfl, rfl⟩ := h
      obtain ⟨h1, h2, h3⟩ := allocScan_some hr
      exact ⟨h1, h2, by rw [h3]⟩
  · intro sb
    unfold SuperBlock.alloc_block
    rw [← allocScan_none]
    cases allocScan sb.free_blocks <;> simp
  · intro sb₁ sb₂ h
    unfold SuperBlock.alloc_inode
    rw [h]
    cases allocScan sb₂.free_inodes <;> simp
  · intro sb₁ sb₂ h
    unfold SuperBlock.alloc_block
    rw [h]
    cases allocScan sb₂.free_blocks <;> simp

/-- Witness for `alloc_lowest_free` at a concrete allocator state. -/
theorem alloc_lowest_free_witness :
    (SuperBlock.new 2 3 4).alloc_inode =
      some (0, { SuperBlock.new 2 3 4 with free_inodes := [false, true] }) ∧
    ((SuperBlock.new 2 3 4).free_inodes.get? 0 = some true ∧
     (∀ k, k < 0 → (SuperBlock.new 2 3 4).free_inodes.get? k = some false) ∧
     { SuperBlock.new 2 3 4 with free_inodes := [false, true] } =
       { SuperBlock.new 2 3 4 with
         free_inodes := (SuperBlock.new 2 3 4).free_inodes.set 0 false }) :=
  ⟨by decide, alloc_lowest_free.1 (SuperBlock.new 2 3 4) 0 _ (by decide)⟩

/-! ## C5: non-recursive rm of a non-empty directory -/

/-- C5 (amended to non-root targets): removing a path that resolves to a non-root
directory with non-empty children, with `recursive = false`, fails with
`DirectoryNotEmpty` and returns the volume state exactly as it was. -/
theorem rm_nonrecursive_nonempty_dir {fs : FileSystem} {path : Str} {inode_id : Nat}
    {ino : Inode} {fuel : Nat}
    (hres : fs.resolve path = .ok inode_id)
    (hid : inode_id ≠ 0) (hpath : path ≠ ['/'])
    (hread : fs.disk.read_inode inode_id = .ok (some ino))
    (htype : ino.type = "dir") (hchild : ino.children ≠ []) :
    fs.rm fuel path false = (fs, some .directoryNotEmpty) := by
  simp only [FileSystem.rm, hres, hread]
  rw [if_neg (by simp [hid, hpath]), if_pos ⟨htype, hchild, trivial⟩]

/-- Witness for `rm_nonrecursive_nonempty_dir` at a concrete volume. -/
theorem rm_nonrecursive_nonempty_dir_witness :
    c5fs2.rm 10 "/d".toList false = (c5fs2, some .directoryNotEmpty) :=
  @rm_nonrecursive_nonempty_dir c5fs2 "/d".toList 1
    { name := "d".toList, type := "dir", parent := some 0, size := 0, blocks := [],
      children := [("e".toList, 2)], created := 0, modified := 0,
      permissions := 493 } 10
    (by decide) (by decide) (by decide) (by decide) (by decide) (by decide)

/-- C5 counterexample: the path `"/"` resolves to the root directory, which has
non-empty children in `c5fs`, yet non-recursive `rm` fails with the
`CannotRemoveRoot` exception (`FSException`), not `DirectoryNotEmpty`. -/
theorem rm_root_nonempty_counterexample :
    c5fs.resolve "/".toList = .ok 0 ∧
    c5fs.disk.read_inode 0 = .ok (some c5root) ∧
    c5root.type = "dir" ∧ c5root.children ≠ [] ∧
    (c5fs.rm 10 "/".toList false).2 = some .fsError ∧
    ¬(c5fs.rm 10 "/".toList false).2 = some .directoryNotEmpty := by
  refine ⟨by decide, by decide, by decide, by decide, by decide, by decide⟩

/-! ## C6: path resolution -/

/-- C6: segment semantics of `_resolve`: empty segments and `.` are skipped, `..`
moves to `inode.parent or 0` (root's `None` parent becomes root, so there is no
escape above root), a named segment inside a non-directory fails `NotADirectory`,
a named segment absent from a directory's children fails `NotFound`; consequently
`resolve("/a/b/../b/c")` and `resolve("/a/b/c")` agree on the `/a/b/c` tree. -/
theorem resolve_segment_semantics :
    (∀ (d : Disk) (curr : Nat) (rest : List Str),
      resolveLoop d curr ([] :: rest) = resolveLoop d curr rest) ∧
    (∀ (d : Disk) (curr : Nat) (rest : List Str),
      resolveLoop d curr (['.'] :: rest) = resolveLoop d curr rest) ∧
    (∀ (d : Disk) (curr : Nat) (rest : List Str) (ino : Inode),
      d.read_inode curr = .ok (some ino) →
      resolveLoop d curr (['.', '.'] :: rest) =
        resolveLoop d (ino.parent.getD 0) rest) ∧
    (∀ (d : Disk) (curr : Nat) (rest : List Str) (part : Str) (ino : Inode),
      d.read_inode curr = .ok (some ino) → ino.type ≠ "dir" →
      part ≠ [] → part ≠ ['.'] → part ≠ ['.', '.'] →
      resolveLoop d curr (part :: rest) = .error .notADirectory) ∧
    (∀ (d : Disk) (curr : Nat) (rest : List Str) (part : Str) (ino : Inode),
      d.read_inode curr = .ok (some ino) → ino.type = "dir" →
      part ≠ [] → part ≠ ['.'] → part ≠ ['.', '.'] →
      dictFind? ino.children part = none →
      resolveLoop d curr (part :: rest) = .error .fileNotFound) ∧
    (c6fs.resolve "/a/b/../b/c".toList = c6fs.resolve "/a/b/c".toList ∧
      c6fs.resolve "/a/b/c".toList = .ok 3) := by
  refine ⟨?_, ?_, ?_, ?_, ?_, by decide, by decide⟩
  · intro d curr rest
    simp [resolveLoop]
  · intro d curr rest
    simp [resolveLoop]
  · intro d curr rest ino hread
    simp [resolveLoop, hread]
  · intro d curr rest part ino hread htype h1 h2 h3
    simp [resolveLoop, hread, h1, h2, h3, htype]
  · intro d curr rest part ino hread htype h1 h2 h3 hfind
    simp [resolveLoop, hread, h1, h2, h3, htype, hfind]

/-- Witness for `resolve_segment_semantics` at concrete inputs. -/
theorem resolve_segment_semantics_witness :
    c6fs.disk.read_inode 0 = .ok (some c6rootIno) ∧ c6rootIno.type = "dir" ∧
    "zz".toList ≠ ([] : Str) ∧ "zz".toList ≠ ['.'] ∧ "zz".toList ≠ ['.', '.'] ∧
    dictFind? c6rootIno.children "zz".toList = none ∧
    resolveLoop c6fs.disk 0 ["zz".toList] = .error .fileNotFound :=
  ⟨by decide, by decide, by decide, by decide, by decide, by decide,
    resolve_segment_semantics.2.2.2.2.1 c6fs.disk 0 [] "zz".toList c6rootIno
      (by decide) (by decide) (by decide) (by decide) (by decide) (by decide)⟩

/-! ## Shape lemmas for the storage layer -/

theorem read_inode_ok {d : Disk} {i : Nat} {v : Option Inode}
    (h : d.read_inode i = .ok v) :
    i < d.superblock.max_inodes ∧ d.inodes.get? i = some v ∧
      i < d.inodes.length := by
  unfold Disk.read_inode at h
  by_cases hi : i < d.superblock.max_inodes
  · rw [if_pos hi] at h
    cases hg : d.inodes.get? i with
    | none => rw [hg] at h; exact absurd h (by simp)
    | some w =>
      rw [hg] at h
      simp at h
      refine ⟨hi, by rw [h], ?_⟩
      by_contra hlen
      rw [List.get?_eq_none.mpr (by omega)] at hg
      exact absurd hg (by simp)
  · rw [if_neg hi] at h
    exact absurd h (by simp)

theorem read_inode_error {d : Disk} {i : Nat} {e : Err}
    (h : d.read_inode i = .error e) : e = .indexError := by
  unfold Disk.read_inode at h
  by_cases hi : i < d.superblock.max_inodes
  · rw [if_pos hi] at h
    cases hg : d.inodes.get? i with
    | none => rw [hg] at h; simpa using h.symm
    | some w => rw [hg] at h; exact absurd h (by simp)
  · rw [if_neg hi] at h
    simpa using h.symm

theorem write_inode_ok {d d' : Disk} {i : Nat} {v : Option Inode}
    (h : d.write_inode i v = .ok d') :
    d' = { d with inodes := d.inodes.set i v } ∧
      i < d.superblock.max_inodes ∧ i < d.inodes.length := by
  unfold Disk.write_inode at h
  by_cases hi : i < d.superblock.max_inodes
  · rw [if_pos hi] at h
    cases hg : d.inodes.get? i with
    | none => rw [hg] at h; exact absurd h (by simp)
    | some w =>
      rw [hg] at h
      simp at h
      refine ⟨h.symm, hi, ?_⟩
      by_contra hlen
      rw [List.get?_eq_none.mpr (by omega)] at hg
      exact absurd hg (by simp)
  · rw [if_neg hi] at h
    exact absurd h (by simp)

theorem write_inode_error {d : Disk} {i : Nat} {v : Option Inode} {e : Err}
    (h : d.write_inode i v = .error e) : e = .indexError := by
  unfold Disk.write_inode at h
  by_cases hi : i < d.superblock.max_inodes
  · rw [if_pos hi] at h
    cases hg : d.inodes.get? i with
    | none => rw [hg] at h; simpa using h.symm
    | some w => rw [hg] at h; exact absurd h (by simp)
  · rw [if_neg hi] at h
    simpa using h.symm

theorem read_block_ok {d : Disk} {i : Nat} {v : List Char}
    (h : d.read_block i = .ok v) :
    i < d.superblock.max_blocks ∧ d.blocks.get? i = some v := by
  unfold Disk.read_block at h
  by_cases hi : i < d.superblock.max_blocks
  · rw [if_pos hi] at h
    cases hg : d.blocks.get? i with
    | none => rw [hg] at h; exact absurd h (by simp)
    | some w =>
      rw [hg] at h
      simp at h
      exact ⟨hi, by rw [h]⟩
  · rw [if_neg hi] at h
    exact absurd h (by simp)

theorem write_block_ok {d d' : Disk} {i : Nat} {data : List Char}
    (h : d.write_block i data = .ok d') :
    d' = { d with blocks := d.blocks.set i data } ∧
      i < d.superblock.max_blocks ∧
      data.length ≤ d.superblock.block_size ∧ i < d.blocks.length := by
  unfold Disk.write_block at h
  by_cases hi : i < d.superblock.max_blocks
  · rw [if_pos hi] at h
    by_cases hs : data.length > d.superblock.block_size
    · rw [if_pos hs] at h
      exact absurd h (by simp)
    · rw [if_neg hs] at h
      cases hg : d.blocks.get? i with
      | none => rw [hg] at h; exact absurd h (by simp)
      | some w =>
        rw [hg] at h
        simp at h
        refine ⟨h.symm, hi, by omega, ?_⟩
        by_contra hlen
        rw [List.get?_eq_none.mpr (by omega)] at hg
        exact absurd hg (by simp)
  · rw [if_neg hi] at h
    exact absurd h (by simp)

theorem write_block_error {d : Disk} {i : Nat} {data : List Char} {e : Err}
    (h : d.write_block i data = .error e) :
    e = .indexError ∨
      (e = .valueError ∧ data.length > d.superblock.block_size) := by
  unfold Disk.write_block at h
  by_cases hi : i < d.superblock.max_blocks
  · rw [if_pos hi] at h
    by_cases hs : data.length > d.superblock.block_size
    · rw [if_pos hs] at h
      simp at h
      exact Or.inr ⟨h.symm, hs⟩
    · rw [if_neg hs] at h
      cases hg : d.blocks.get? i with
      | none => rw [hg] at h; simp at h; exact Or.inl h.symm
      | some w => rw [hg] at h; exact absurd h (by simp)
  · rw [if_neg hi] at h
    simp at h
    exact Or.inl h.symm

/-- `free_block` changes only `free_blocks`. -/
theorem free_block_fields (sb : SuperBlock) (i : Nat) :
    (sb.free_block i).max_inodes = sb.max_inodes ∧
    (sb.free_block i).max_blocks = sb.max_blocks ∧
    (sb.free_block i).block_size = sb.block_size ∧
    (sb.free_block i).free_inodes = sb.free_inodes := by
  unfold SuperBlock.free_block
  split <;> simp

/-- A fold of `free_block` changes only `free_blocks`. -/
theorem foldl_free_block_fields (sb : SuperBlock) (l : List Nat) :
    (l.foldl SuperBlock.free_block sb).max_inodes = sb.max_inodes ∧
    (l.foldl SuperBlock.free_block sb).max_blocks = sb.max_blocks ∧
    (l.foldl SuperBlock.free_block sb).block_size = sb.block_size ∧
    (l.foldl SuperBlock.free_block sb).free_inodes = sb.free_inodes := by
  induction l generalizing sb with
  | nil => simp
  | cons b rest ih =>
    simp only [List.foldl_cons]
    obtain ⟨h1, h2, h3, h4⟩ := ih (sb.free_block b)
    obtain ⟨g1, g2, g3, g4⟩ := free_block_fields sb b
    exact ⟨h1.trans g1, h2.trans g2, h3.trans g3, h4.trans g4⟩

/-- A fold of `free_block` preserves the length of the free set. -/
theorem foldl_free_block_length (sb : SuperBlock) (l : List Nat) :
    (l.foldl SuperBlock.free_block sb).free_blocks.length =
      sb.free_blocks.length := by
  induction l generalizing sb with
  | nil => simp
  | cons b rest ih =>
    simp only [List.foldl_cons]
    rw [ih]
    unfold SuperBlock.free_block
    split <;> simp

/-- `alloc_block` changes only `free_blocks`. -/
theorem alloc_block_fields {sb sb' : SuperBlock} {b : Nat}
    (h : sb.alloc_block = some (b, sb')) :
    sb'.max_inodes = sb.max_inodes ∧ sb'.max_blocks = sb.max_blocks ∧
    sb'.block_size = sb.block_size ∧ sb'.free_inodes = sb.free_inodes := by
  unfold SuperBlock.alloc_block at h
  cases hr : allocScan sb.free_blocks with
  | none => rw [hr] at h; exact absurd h (by simp)
  | some p =>
    rw [hr] at h
    simp at h
    rw [← h.2]
    simp

/-! ## C8: the payload-size guard -/

theorem resolveLoop_ne_valueError (d : Disk) (parts : List Str) :
    ∀ curr : Nat, resolveLoop d curr parts ≠ .error .valueError := by
  induction parts with
  | nil => intro curr; simp [resolveLoop]
  | cons part rest ih =>
    intro curr
    unfold resolveLoop
    by_cases h1 : part = [] ∨ part = ['.']
    · rw [if_pos h1]; exact ih curr
    · rw [if_neg h1]
      by_cases h2 : part = ['.', '.']
      · rw [if_pos h2]
        cases hr : d.read_inode curr with
        | error e => simp [read_inode_error hr]
        | ok v =>
          cases v with
          | none => simp
          | some ino => simpa using ih (ino.parent.getD 0)
      · rw [if_neg h2]
        cases hr : d.read_inode curr with
        | error e => simp [read_inode_error hr]
        | ok v =>
          cases v with
          | none => simp
          | some ino =>
            by_cases ht : ino.type ≠ "dir"
            · simp [ht]
            · cases hf : dictFind? ino.children part with
              | none => simp [ht, hf]
              | some child => simpa [ht, hf] using ih child

theorem resolve_ne_valueError (fs : FileSystem) (path : Str) :
    fs.resolve path ≠ .error .valueError := by
  unfold FileSystem.resolve
  by_cases h : path = ['/']
  · rw [if_pos h]; simp
  · rw [if_neg h]; exact resolveLoop_ne_valueError _ _ _

theorem chunksOfFuel_le {fuel bs : Nat} {data : List Char} :
    ∀ c ∈ chunksOfFuel fuel bs data, c.length ≤ bs := by
  induction fuel generalizing data with
  | zero =>
    intro c hc
    cases data with
    | nil => simp [chunksOfFuel] at hc
    | cons x xs =>
      cases bs with
      | zero => simp [chunksOfFuel] at hc
      | succ b => simp [chunksOfFuel] at hc
  | succ fuel ih =>
    intro c hc
    cases data with
    | nil => simp [chunksOfFuel] at hc
    | cons x xs =>
      cases bs with
      | zero => simp [chunksOfFuel] at hc
      | succ b =>
        simp only [chunksOfFuel, List.mem_cons] at hc
        rcases hc with rfl | hc
        · simp
        · exact ih _ hc

theorem chunksOf_le {bs : Nat} {data : List Char} :
    ∀ c ∈ chunksOf bs data, c.length ≤ bs :=
  chunksOfFuel_le

theorem writeLoop_ne_valueError (inode_id : Nat) :
    ∀ (chunks : List (List Char)) (d : Disk) (ino : Inode),
    (∀ c ∈ chunks, c.length ≤ d.superblock.block_size) →
    (writeLoop inode_id d ino chunks).2.2 ≠ some .valueError := by
  intro chunks
  induction chunks with
  | nil => intro d ino _; simp [writeLoop]
  | cons chunk rest ih =>
    intro d ino hbound
    unfold writeLoop
    cases ha : d.superblock.alloc_block with
    | none => simp
    | some p =>
      obtain ⟨b, sb'⟩ := p
      simp only []
      cases hw : Disk.write_block { d with superblock := sb' } b chunk with
      | error e =>
        rcases write_block_error hw with rfl | ⟨rfl, hgt⟩
        · simp
        · exfalso
          have hbs : sb'.block_size = d.superblock.block_size :=
            (alloc_block_fields ha).2.2.1
          have := hbound chunk (by simp)
          simp only [hbs] at hgt
          omega
      | ok d₂ =>
        apply ih
        intro c hc
        have h₂ := (write_block_ok hw).1
        have hbs : sb'.block_size = d.superblock.block_size :=
          (alloc_block_fields ha).2.2.1
        have : d₂.superblock = sb' := by rw [h₂]
        rw [this, hbs]
        exact hbound c (List.mem_cons_of_mem _ hc)

/-- C8 (amended): for a block id within the `max_blocks` bound, `write_block`
fails with the payload-too-large error (`ValueError`) exactly when the payload
exceeds `block_size`; and `FileSystem.write`, which chunks data into pieces of at
most `block_size` characters, can never produce that error. -/
theorem payload_guard :
    (∀ (d : Disk) (i : Nat) (data : List Char), i < d.superblock.max_blocks →
      (d.write_block i data = .error .valueError ↔
        data.length > d.superblock.block_size)) ∧
    (∀ (fs : FileSystem) (name : Str) (data : List Char),
      (fs.write name data).2 ≠ some .valueError) := by
  constructor
  · intro d i data hi
    constructor
    · intro h
      rcases write_block_error h with h' | ⟨_, hgt⟩
      · exact absurd h' (by simp)
      · exact hgt
    · intro hgt
      unfold Disk.write_block
      rw [if_pos hi, if_pos hgt]
  · intro fs name data
    unfold FileSystem.write
    split
    · next e heq =>
      intro hc
      simp at hc
      subst hc
      exact resolve_ne_valueError fs name heq
    · next inode_id heq =>
      split
      · next e heq2 =>
        intro hc
        simp at hc
        subst hc
        exact absurd (read_inode_error heq2) (by simp)
      · simp
      · next ino heq2 =>
        split
        · simp
        · dsimp only []
          split
          · simp
          · split
            · simp
            · split
              · next d₂ x e hloop =>
                intro hc
                simp at hc
                subst hc
                have hnv := writeLoop_ne_valueError inode_id
                  (chunksOf
                    (ino.blocks.foldl SuperBlock.free_block fs.disk.superblock).block_size
                    data)
                  (Disk.setSlot
                    { fs.disk with
                      superblock :=
                        ino.blocks.foldl SuperBlock.free_block fs.disk.superblock }
                    inode_id { ino with blocks := [] })
                  { ino with blocks := [] }
                  (fun c hc => chunksOf_le c hc)
                rw [hloop] at hnv
                exact hnv rfl
              · next d₂ ino₂ hloop =>
                split
                · next e hwi =>
                  intro hc
                  simp at hc
                  subst hc
                  exact absurd (write_inode_error hwi) (by simp)
                · simp

/-- Witness for `payload_guard` at a concrete disk and write call. -/
theorem payload_guard_witness :
    0 < (initVolume 4 2 4).disk.superblock.max_blocks ∧
    ((initVolume 4 2 4).disk.write_block 0 "abcdefgh".toList = .error .valueError ↔
      ("abcdefgh".toList).length > (initVolume 4 2 4).disk.superblock.block_size) :=
  ⟨by decide, payload_guard.1 (initVolume 4 2 4).disk 0 "abcdefgh".toList (by decide)⟩

/-- C8 counterexample: an out-of-range block id with an oversized payload fails
with `IndexError`, not the payload-too-large `ValueError`, so "fails with
`PayloadTooLarge` exactly when `len(data)` exceeds `block_size`" does not hold
for every id. -/
theorem write_block_out_of_range_counterexample :
    ("abcdefgh".toList).length > (initVolume 4 2 4).disk.superblock.block_size ∧
    (initVolume 4 2 4).disk.write_block 2 "abcdefgh".toList = .error .indexError ∧
    ¬((initVolume 4 2 4).disk.write_block 2 "abcdefgh".toList =
        .error .valueError) := by
  refine ⟨by decide, by decide, by decide⟩

/-! ## List helper lemmas -/

theorem set_get?_id {α : Type} {l : List α} {i : Nat} {a : α}
    (h : l.get? i = some a) : l.set i a = l := by
  induction l generalizing i with
  | nil => simp at h
  | cons x xs ih =>
    cases i with
    | zero =>
      simp at h
      simp [h]
    | succ n =>
      simp at h
      simp [List.set]
      exact ih (by simpa using h)

theorem count_true_set_false {l : List Bool} {i : Nat}
    (h : l.get? i = some true) :
    (l.set i false).count true + 1 = l.count true := by
  induction l generalizing i with
  | nil => simp at h
  | cons x xs ih =>
    cases i with
    | zero =>
      simp at h
      subst h
      simp [List.count_cons]
    | succ n =>
      simp at h
      have := ih (by simpa using h)
      simp [List.set, List.count_cons]
      omega

theorem count_true_set_true {l : List Bool} {i : Nat}
    (h : l.get? i = some false) :
    (l.set i true).count true = l.count true + 1 := by
  induction l generalizing i with
  | nil => simp at h
  | cons x xs ih =>
    cases i with
    | zero =>
      simp at h
      subst h
      simp [List.count_cons]
    | succ n =>
      simp at h
      have := ih (by simpa using h)
      simp [List.set, List.count_cons]
      omega

/-! ## Free-block fold lemmas -/

theorem alloc_block_some {sb sb' : SuperBlock} {b : Nat}
    (h : sb.alloc_block = some (b, sb')) :
    sb.free_blocks.get? b = some true ∧
      sb' = { sb with free_blocks := sb.free_blocks.set b false } ∧
      b < sb.free_blocks.length := by
  unfold SuperBlock.alloc_block at h
  cases hr : allocScan sb.free_blocks with
  | none => rw [hr] at h; exact absurd h (by simp)
  | some p =>
    rw [hr] at h
    simp at h
    obtain ⟨rfl, rfl⟩ := h
    obtain ⟨h1, _, h3⟩ := allocScan_some hr
    refine ⟨h1, by rw [h3], ?_⟩
    by_contra hlen
    rw [List.get?_eq_none.mpr (by omega)] at h1
    exact absurd h1 (by simp)

/-- `free_block` on an in-range id. -/
theorem free_block_pos {sb : SuperBlock} {i : Nat} (h : i < sb.max_blocks) :
    sb.free_block i = { sb with free_blocks := sb.free_blocks.set i true } := by
  unfold SuperBlock.free_block
  rw [if_pos h]

/-- `free_block` on an out-of-range id is a no-op. -/
theorem free_block_neg {sb : SuperBlock} {i : Nat} (h : ¬i < sb.max_blocks) :
    sb.free_block i = sb := by
  unfold SuperBlock.free_block
  rw [if_neg h]

/-- Pulling a `set b false` out of a fold of `free_block` over indices avoiding
`b`. -/
theorem foldl_free_block_set_false (l : List Nat) (sb : SuperBlock) (b : Nat)
    (hb : b ∉ l) :
    (l.foldl SuperBlock.free_block
        { sb with free_blocks := sb.free_blocks.set b false }).free_blocks =
      ((l.foldl SuperBlock.free_block sb).free_blocks).set b false := by
  induction l generalizing sb with
  | nil => simp
  | cons x xs ih =>
    have hxb : x ≠ b := fun hcontra => hb (by simp [hcontra])
    simp only [List.foldl_cons]
    by_cases hx : x < sb.max_blocks
    · have step :
          SuperBlock.free_block
              { sb with free_blocks := sb.free_blocks.set b false } x =
            { sb with free_blocks := (sb.free_blocks.set x true).set b false } := by
        unfold SuperBlock.free_block
        rw [if_pos (by simpa using hx)]
        simp [List.set_comm _ _ _ hxb]
      rw [step]
      have stepR : SuperBlock.free_block sb x =
          { sb with free_blocks := sb.free_blocks.set x true } := by
        unfold SuperBlock.free_block
        rw [if_pos hx]
      rw [stepR]
      exact ih { sb with free_blocks := sb.free_blocks.set x true }
        (fun hc => hb (by simp [hc]))
    · have step :
          SuperBlock.free_block
              { sb with free_blocks := sb.free_blocks.set b false } x =
            { sb with free_blocks := sb.free_blocks.set b false } := by
        unfold SuperBlock.free_block
        rw [if_neg (by simpa using hx)]
      have stepR : SuperBlock.free_block sb x = sb := by
        unfold SuperBlock.free_block
        rw [if_neg hx]
      rw [step, stepR]
      exact ih sb (fun hc => hb (by simp [hc]))

/-- A fold of `free_block` over indices avoiding `b` does not change slot `b`. -/
theorem foldl_free_block_get?_ne (l : List Nat) (sb : SuperBlock) (b : Nat)
    (hb : b ∉ l) :
    (l.foldl SuperBlock.free_block sb).free_blocks.get? b =
      sb.free_blocks.get? b := by
  induction l generalizing sb with
  | nil => simp
  | cons x xs ih =>
    have hxb : x ≠ b := fun hcontra => hb (by simp [hcontra])
    simp only [List.foldl_cons]
    rw [ih (SuperBlock.free_block sb x) (fun hc => hb (by simp [hc]))]
    unfold SuperBlock.free_block
    split
    · simp only []
      rw [List.get?_set_ne _ _ hxb]
    · rfl

/-- Freeing distinct, in-range, currently-used blocks raises the free count by
their number. -/
theorem foldl_free_block_count (l : List Nat) (sb : SuperBlock)
    (hnd : l.Nodup)
    (hmark : ∀ x ∈ l, sb.free_blocks.get? x = some false ∧ x < sb.max_blocks) :
    (l.foldl SuperBlock.free_block sb).get_free_block_count =
      sb.get_free_block_count + l.length := by
  induction l generalizing sb with
  | nil => simp
  | cons x xs ih =>
    simp only [List.foldl_cons]
    obtain ⟨hx, hxmax⟩ := hmark x (by simp)
    have step : SuperBlock.free_block sb x =
        { sb with free_blocks := sb.free_blocks.set x true } := by
      unfold SuperBlock.free_block
      rw [if_pos hxmax]
    rw [step]
    have hcount : ({ sb with free_blocks := sb.free_blocks.set x true} :
        SuperBlock).get_free_block_count = sb.get_free_block_count + 1 := by
      unfold SuperBlock.get_free_block_count
      exact count_true_set_true hx
    have hxs : ∀ y ∈ xs,
        ({ sb with free_blocks := sb.free_blocks.set x true} :
          SuperBlock).free_blocks.get? y = some false ∧
          y < ({ sb with free_blocks := sb.free_blocks.set x true} :
            SuperBlock).max_blocks := by
      intro y hy
      have hyx : y ≠ x := by
        intro hcontra
        subst hcontra
        exact (List.nodup_cons.mp hnd).1 hy
      obtain ⟨hmk, hmx⟩ := hmark y (by simp [hy])
      refine ⟨?_, hmx⟩
      show (sb.free_blocks.set x true).get? y = some false
      rw [List.get?_set_ne _ _ (fun hc => hyx hc.symm)]
      exact hmk
    rw [ih { sb with free_blocks := sb.free_blocks.set x true }
      (List.nodup_cons.mp hnd).2 hxs, hcount]
    rw [List.length_cons]
    omega

/-- Allocating a block and freeing it after further frees restores the free set of
the unallocated state. -/
theorem foldl_free_snoc {blocks : List Nat} {sb : SuperBlock} {b : Nat}
    (hnm : b ∉ blocks) (hb : sb.free_blocks.get? b = some true)
    (hmax : b < sb.max_blocks) :
    ((blocks ++ [b]).foldl SuperBlock.free_block
        { sb with free_blocks := sb.free_blocks.set b false }).free_blocks =
      (blocks.foldl SuperBlock.free_block sb).free_blocks := by
  rw [List.foldl_append]
  simp only [List.foldl_cons, List.foldl_nil]
  rw [free_block_pos (by
    rw [(foldl_free_block_fields
      { sb with free_blocks := sb.free_blocks.set b false } blocks).2.1]
    exact hmax)]
  simp only []
  rw [foldl_free_block_set_false blocks sb b hnm, List.set_set]
  apply set_get?_id
  rw [foldl_free_block_get?_ne blocks sb b hnm]
  exact hb

/-! ## C1: a DiskFull write failure and the free-block count -/

/-- On the rollback path (`DiskFull` from the loop) the free-block set ends as it
was right after the initial frees. -/
theorem writeLoop_diskFull (inode_id : Nat) :
    ∀ (chunks : List (List Char)) (d : Disk) (ino : Inode) (d' : Disk)
      (ino' : Inode),
    writeLoop inode_id d ino chunks = (d', ino', some .diskFull) →
    (∀ x ∈ ino.blocks, d.superblock.free_blocks.get? x = some false) →
    d.superblock.free_blocks.length ≤ d.superblock.max_blocks →
    d'.superblock.free_blocks =
      (ino.blocks.foldl SuperBlock.free_block d.superblock).free_blocks := by
  intro chunks
  induction chunks with
  | nil =>
    intro d ino d' ino' h _ _
    simp [writeLoop] at h
  | cons chunk rest ih =>
    intro d ino d' ino' h hmark hlen
    unfold writeLoop at h
    cases ha : d.superblock.alloc_block with
    | none =>
      rw [ha] at h
      simp at h
      obtain ⟨h1, -, -⟩ := h
      rw [← h1]
      rfl
    | some p =>
      obtain ⟨b, sbA⟩ := p
      rw [ha] at h
      simp only [] at h
      obtain ⟨hbtrue, hsbA, hblen⟩ := alloc_block_some ha
      cases hw : Disk.write_block { d with superblock := sbA } b chunk with
      | error e =>
        rw [hw] at h
        simp at h
        rcases write_block_error hw with he | ⟨he, -⟩ <;>
          · rw [he] at h
            exact absurd h.2.2 (by simp)
      | ok d₂ =>
        rw [hw] at h
        have hsup : d₂.superblock = sbA := by
          rw [(write_block_ok hw).1]
        have hbmem : b ∉ ino.blocks := by
          intro hcontra
          rw [(hmark b hcontra)] at hbtrue
          exact absurd hbtrue (by simp)
        have ihres := ih d₂ { ino with blocks := ino.blocks ++ [b] } d' ino' h ?_ ?_
        · rw [ihres]
          simp only [hsup, hsbA]
          exact foldl_free_snoc hbmem hbtrue (by omega)
        · intro x hx
          simp only [hsup, hsbA]
          simp only [List.mem_append, List.mem_singleton] at hx
          rcases hx with hx | rfl
          · have hxb : x ≠ b := by
              intro hcontra
              subst hcontra
              rw [hmark x hx] at hbtrue
              exact absurd hbtrue (by simp)
            rw [List.get?_set_ne _ _ (fun hc => hxb hc.symm)]
            exact hmark x hx
          · exact List.get?_set_eq_of_lt _ hblen
        · simp only [hsup, hsbA]
          simpa using hlen

/-- C1 (amended): when `write` fails with `DiskFull`, the free-block set equals the
entry set with the file's previously-held blocks freed; in particular the
free-block count equals the count at entry plus the number of blocks the file
held (the held blocks were freed before the pre-check, and no partial new
allocation is retained). -/
theorem write_diskfull_rolls_back {fs : FileSystem} {path : Str}
    {data : List Char} {inode_id : Nat} {ino : Inode}
    (hres : fs.resolve path = .ok inode_id)
    (hread : fs.disk.read_inode inode_id = .ok (some ino))
    (hfile : ino.type = "file")
    (hnd : ino.blocks.Nodup)
    (hmark : ∀ x ∈ ino.blocks,
      fs.disk.superblock.free_blocks.get? x = some false ∧
        x < fs.disk.superblock.max_blocks)
    (hlen : fs.disk.superblock.free_blocks.length ≤
      fs.disk.superblock.max_blocks)
    (hfail : (fs.write path data).2 = some .diskFull) :
    (fs.write path data).1.disk.superblock.free_blocks =
      (ino.blocks.foldl SuperBlock.free_block fs.disk.superblock).free_blocks ∧
    (fs.write path data).1.disk.superblock.get_free_block_count =
      fs.disk.superblock.get_free_block_count + ino.blocks.length := by
  have hcount :
      (ino.blocks.foldl SuperBlock.free_block
        fs.disk.superblock).get_free_block_count =
        fs.disk.superblock.get_free_block_count + ino.blocks.length :=
    foldl_free_block_count _ _ hnd hmark
  have hmain : (fs.write path data).2 = some .diskFull →
      (fs.write path data).1.disk.superblock.free_blocks =
        (ino.blocks.foldl SuperBlock.free_block
          fs.disk.superblock).free_blocks := by
    simp only [FileSystem.write, hres, hread]
    rw [if_neg (by simp [hfile])]
    split
    · intro hf
      exact absurd hf (by simp)
    · split
      · intro _
        rfl
      · split
        · next d₂ x e heq =>
          intro hf
          simp at hf
          subst hf
          have hres₂ := writeLoop_diskFull inode_id _ _ _ _ _ heq
            (by simp)
            (by
              simp only [Disk.setSlot]
              rw [foldl_free_block_length]
              rw [(foldl_free_block_fields fs.disk.superblock ino.blocks).2.1]
              exact hlen)
          simpa using hres₂
        · next d₂ ino₂ heq =>
          split
          · next e hwi =>
            intro hf
            simp at hf
            subst hf
            exact absurd (write_inode_error hwi) (by simp)
          · intro hf
            exact absurd hf (by simp)
  refine ⟨hmain hfail, ?_⟩
  · have heq : (fs.write path data).1.disk.superblock.get_free_block_count =
        (ino.blocks.foldl SuperBlock.free_block
          fs.disk.superblock).get_free_block_count := by
      unfold SuperBlock.get_free_block_count
      rw [hmain hfail]
    rw [heq, hcount]

/-- C1 counterexample: `/f` holds one block and one block is free; overwriting
with data needing three blocks fails `DiskFull`, yet the free-block count after
the call is 2, not the 1 it was before (the held block was freed before the
pre-check). -/
theorem write_diskfull_count_changes_counterexample :
    (c1fs.write "/f".toList "abcdefghijkl".toList).2 = some .diskFull ∧
    c1fs.disk.superblock.get_free_block_count = 1 ∧
    (c1fs.write "/f".toList
      "abcdefghijkl".toList).1.disk.superblock.get_free_block_count = 2 ∧
    ¬((c1fs.write "/f".toList
        "abcdefghijkl".toList).1.disk.superblock.get_free_block_count =
      c1fs.disk.superblock.get_free_block_count) := by
  refine ⟨by decide, by decide, by decide, by decide⟩

/-- Witness for `write_diskfull_rolls_back` at the concrete volume `c1fs`. -/
theorem write_diskfull_rolls_back_witness :
    (c1fs.write "/f".toList "abcdefghijkl".toList).2 = some .diskFull ∧
    ((c1fs.write "/f".toList
        "abcdefghijkl".toList).1.disk.superblock.free_blocks =
      (([0] : List Nat).foldl SuperBlock.free_block
        c1fs.disk.superblock).free_blocks ∧
      (c1fs.write "/f".toList
          "abcdefghijkl".toList).1.disk.superblock.get_free_block_count =
        c1fs.disk.superblock.get_free_block_count + ([0] : List Nat).length) :=
  ⟨by decide,
    @write_diskfull_rolls_back c1fs "/f".toList "abcdefghijkl".toList 1
      { name := "f".toList, type := "file", parent := some 0, size := 4,
        blocks := [0], children := [], created := 0, modified := 0,
        permissions := 420 }
      (by decide) (by decide) (by decide) (by decide) (by decide) (by decide)
      (by decide)⟩

/-! ## C2: placement and semantics of the DiskFull pre-check -/

theorem chunksOfFuel_length {bs : Nat} (hbs : 0 < bs) :
    ∀ (fuel : Nat) (data : List Char), data.length ≤ fuel →
      (chunksOfFuel fuel bs data).length = (data.length + bs - 1) / bs := by
  intro fuel
  induction fuel with
  | zero =>
    intro data hlen
    have hnil : data = [] := List.eq_nil_of_length_eq_zero (by omega)
    subst hnil
    simp [chunksOfFuel]
    exact (Nat.div_eq_of_lt (by omega)).symm
  | succ fuel ih =>
    intro data hlen
    cases data with
    | nil =>
      simp [chunksOfFuel]
      exact (Nat.div_eq_of_lt (by omega)).symm
    | cons c cs =>
      cases bs with
      | zero => omega
      | succ b =>
        simp only [chunksOfFuel, List.length_cons]
        rw [ih ((c :: cs).drop (b + 1))
          (by
            simp only [List.length_drop, List.length_cons]
            simp only [List.length_cons] at hlen
            omega)]
        have hd : ((c :: cs).drop (b + 1)).length = cs.length - b := by
          simp [List.length_drop]
        rw [hd]
        by_cases hc : cs.length ≤ b
        · have h1 : cs.length - b = 0 := by omega
          have h2 : 0 + (b + 1) - 1 = b := by omega
          have h3 : cs.length + 1 + (b + 1) - 1 = cs.length + (b + 1) := by omega
          rw [h1, h2, h3, Nat.add_div_right _ (by omega),
            Nat.div_eq_of_lt (by omega), Nat.div_eq_of_lt (by omega)]
        · have h1 : cs.length - b + (b + 1) - 1 = cs.length := by omega
          have h2 : cs.length + 1 + (b + 1) - 1 = cs.length + (b + 1) := by omega
          rw [h1, h2, Nat.add_div_right _ (by omega)]

theorem chunksOf_length {bs : Nat} (hbs : 0 < bs) (data : List Char) :
    (chunksOf bs data).length = (data.length + bs - 1) / bs :=
  chunksOfFuel_length hbs data.length data le_rfl

/-- The allocation loop succeeds whenever enough blocks are free and the volume is
well-formed. -/
theorem writeLoop_success (inode_id : Nat) :
    ∀ (chunks : List (List Char)) (d : Disk) (ino : Inode),
    chunks.length ≤ d.superblock.get_free_block_count →
    (∀ c ∈ chunks, c.length ≤ d.superblock.block_size) →
    d.superblock.free_blocks.length = d.superblock.max_blocks →
    d.blocks.length = d.superblock.max_blocks →
    (writeLoop inode_id d ino chunks).2.2 = none := by
  intro chunks
  induction chunks with
  | nil =>
    intro d ino _ _ _ _
    simp [writeLoop]
  | cons chunk rest ih =>
    intro d ino hcount hsize hflen hblen
    unfold writeLoop
    cases ha : d.superblock.alloc_block with
    | none =>
      exfalso
      unfold SuperBlock.alloc_block at ha
      cases hr : allocScan d.superblock.free_blocks with
      | some p => rw [hr] at ha; exact absurd ha (by simp)
      | none =>
        have hall := allocScan_none.mp hr
        have : d.superblock.get_free_block_count = 0 := by
          unfold SuperBlock.get_free_block_count
          rw [List.count_eq_zero]
          intro hmem
          exact absurd (hall true hmem) (by simp)
        simp [List.length_cons] at hcount
        omega
    | some p =>
      obtain ⟨b, sbA⟩ := p
      obtain ⟨hbtrue, hsbA, hblt⟩ := alloc_block_some ha
      have hbmax : b < d.superblock.max_blocks := by omega
      cases hg : d.blocks.get? b with
      | none =>
        exfalso
        rw [List.get?_eq_none] at hg
        omega
      | some w =>
        have hw : Disk.write_block { d with superblock := sbA } b chunk =
            .ok { { d with superblock := sbA } with
              blocks := d.blocks.set b chunk } := by
          unfold Disk.write_block
          rw [if_pos (by simp [hsbA]; exact hbmax)]
          rw [if_neg (by
            simp only [hsbA]
            simp
            exact hsize chunk (by simp))]
          simp only []
          rw [hg]
        simp only []
        rw [hw]
        have hgc : sbA.get_free_block_count + 1 =
            d.superblock.get_free_block_count := by
          rw [hsbA]
          show (d.superblock.free_blocks.set b false).count true + 1 =
            d.superblock.free_blocks.count true
          exact count_true_set_false hbtrue
        apply ih
        · show rest.length ≤ sbA.get_free_block_count
          simp only [List.length_cons] at hcount
          omega
        · intro c hc
          show c.length ≤ sbA.block_size
          rw [hsbA]
          exact hsize c (by simp [hc])
        · show sbA.free_blocks.length = sbA.max_blocks
          rw [hsbA]
          simp [hflen]
        · show (d.blocks.set b chunk).length = sbA.max_blocks
          rw [hsbA]
          simp [hblen]

/-- C2 (amended): the `DiskFull` pre-check runs after the file's held blocks have
been freed: under a well-formed volume, `write(path, data)` fails `DiskFull`
exactly when `ceil(len(data)/block_size)` exceeds the entry free-block count plus
the number of blocks the file previously held — not the entry free-block count
alone. -/
theorem write_diskfull_iff {fs : FileSystem} {path : Str} {data : List Char}
    {inode_id : Nat} {ino : Inode}
    (hres : fs.resolve path = .ok inode_id)
    (hread : fs.disk.read_inode inode_id = .ok (some ino))
    (hfile : ino.type = "file")
    (hnd : ino.blocks.Nodup)
    (hmark : ∀ x ∈ ino.blocks,
      fs.disk.superblock.free_blocks.get? x = some false ∧
        x < fs.disk.superblock.max_blocks)
    (hbs : 0 < fs.disk.superblock.block_size)
    (hflen : fs.disk.superblock.free_blocks.length =
      fs.disk.superblock.max_blocks)
    (hblen : fs.disk.blocks.length = fs.disk.superblock.max_blocks) :
    (fs.write path data).2 = some .diskFull ↔
      (data.length + fs.disk.superblock.block_size - 1) /
          fs.disk.superblock.block_size >
        fs.disk.superblock.get_free_block_count + ino.blocks.length := by
  have hfields := foldl_free_block_fields fs.disk.superblock ino.blocks
  have hcount :
      (ino.blocks.foldl SuperBlock.free_block
        fs.disk.superblock).get_free_block_count =
      fs.disk.superblock.get_free_block_count + ino.blocks.length :=
    foldl_free_block_count _ _ hnd hmark
  simp only [FileSystem.write, hres, hread]
  rw [if_neg (by simp [hfile])]
  rw [if_neg (by rw [hfields.2.2.1]; omega)]
  by_cases hpre :
      (data.length +
        (ino.blocks.foldl SuperBlock.free_block
          fs.disk.superblock).block_size - 1) /
        (ino.blocks.foldl SuperBlock.free_block
          fs.disk.superblock).block_size >
        (ino.blocks.foldl SuperBlock.free_block
          fs.disk.superblock).get_free_block_count
  · rw [if_pos hpre]
    simp only []
    constructor
    · intro _
      rw [hfields.2.2.1, hcount] at hpre
      exact hpre
    · intro _
      trivial
  · rw [if_neg hpre]
    have hnone := writeLoop_success inode_id
      (chunksOf
        (ino.blocks.foldl SuperBlock.free_block
          fs.disk.superblock).block_size data)
      (Disk.setSlot
        { fs.disk with
          superblock := ino.blocks.foldl SuperBlock.free_block
            fs.disk.superblock }
        inode_id { ino with blocks := [] })
      { ino with blocks := [] }
      (by
        simp only [Disk.setSlot]
        rw [chunksOf_length (by rw [hfields.2.2.1]; omega) data]
        omega)
      (fun c hc => chunksOf_le c hc)
      (by
        simp only [Disk.setSlot]
        rw [foldl_free_block_length, hfields.2.1, hflen])
      (by
        simp only [Disk.setSlot]
        rw [hfields.2.1, hblen])
    constructor
    · intro hf
      exfalso
      cases hw : writeLoop inode_id
        (Disk.setSlot
          { fs.disk with
            superblock := ino.blocks.foldl SuperBlock.free_block
              fs.disk.superblock }
          inode_id { ino with blocks := [] })
        { ino with blocks := [] }
        (chunksOf
          (ino.blocks.foldl SuperBlock.free_block
            fs.disk.superblock).block_size data) with
      | mk d₂ q =>
        obtain ⟨ino₂, err⟩ := q
        rw [hw] at hnone hf
        simp only [] at hnone
        subst hnone
        simp only [] at hf
        cases hwi : Disk.write_inode
          (d₂.setSlot inode_id { ino₂ with size := data.length, modified := 0 })
          inode_id (some { ino₂ with size := data.length, modified := 0 }) with
        | error e =>
          rw [hwi] at hf
          simp at hf
          exact absurd (write_inode_error hwi) (by rw [hf]; simp)
        | ok d₄ =>
          rw [hwi] at hf
          simp at hf
    · intro hgt
      exfalso
      rw [hfields.2.2.1, hcount] at hpre
      omega

/-- C2 counterexample: `/f` holds two blocks, the entry free-block count is 0, and
the new data needs two blocks — the claimed up-front pre-check would fail
`DiskFull`, but the call succeeds because the check runs after the held blocks are
freed. -/
theorem write_precheck_after_free_counterexample :
    c2fs.disk.superblock.get_free_block_count = 0 ∧
    ("wxyz1234".toList.length + c2fs.disk.superblock.block_size - 1) /
      c2fs.disk.superblock.block_size = 2 ∧
    (c2fs.write "/f".toList "wxyz1234".toList).2 = none ∧
    ¬((c2fs.write "/f".toList "wxyz1234".toList).2 = some .diskFull) := by
  refine ⟨by decide, by decide, by decide, by decide⟩

/-- Witness for `write_diskfull_iff` at the concrete volume `c1fs`. -/
theorem write_diskfull_iff_witness :
    (c1fs.write "/f".toList "abcdefghijkl".toList).2 = some .diskFull ↔
      ("abcdefghijkl".toList.length + c1fs.disk.superblock.block_size - 1) /
          c1fs.disk.superblock.block_size >
        c1fs.disk.superblock.get_free_block_count + ([0] : List Nat).length :=
  @write_diskfull_iff c1fs "/f".toList "abcdefghijkl".toList 1
    { name := "f".toList, type := "file", parent := some 0, size := 4,
      blocks := [0], children := [], created := 0, modified := 0,
      permissions := 420 }
    (by decide) (by decide) (by decide) (by decide) (by decide) (by decide)
    (by decide) (by decide)

/-! ## C3: write/read round trip -/

theorem chunksOfFuel_join {bs : Nat} (hbs : 0 < bs) :
    ∀ (fuel : Nat) (data : List Char), data.length ≤ fuel →
      (chunksOfFuel fuel bs data).flatten = data := by
  intro fuel
  induction fuel with
  | zero =>
    intro data hlen
    have hnil : data = [] := List.eq_nil_of_length_eq_zero (by omega)
    subst hnil
    simp [chunksOfFuel]
  | succ fuel ih =>
    intro data hlen
    cases data with
    | nil => simp [chunksOfFuel]
    | cons c cs =>
      cases bs with
      | zero => omega
      | succ b =>
        show ((c :: cs).take (b + 1) ::
          chunksOfFuel fuel (b + 1) ((c :: cs).drop (b + 1))).flatten = c :: cs
        rw [List.flatten_cons, ih ((c :: cs).drop (b + 1))
          (by
            simp only [List.length_drop, List.length_cons]
            simp only [List.length_cons] at hlen
            omega)]
        exact List.take_append_drop _ _

theorem chunksOf_join {bs : Nat} (hbs : 0 < bs) (data : List Char) :
    (chunksOf bs data).flatten = data :=
  chunksOfFuel_join hbs data.length data le_rfl

/-- `readBlocksAcc` depends only on the block store and its capacity. -/
theorem readBlocksAcc_congr (dA dB : Disk)
    (hmax : dA.superblock.max_blocks = dB.superblock.max_blocks)
    (hblocks : dA.blocks = dB.blocks) :
    ∀ (l : List Nat) (acc : List Char),
      readBlocksAcc dA l acc = readBlocksAcc dB l acc := by
  intro l
  induction l with
  | nil => intro acc; rfl
  | cons x xs ih =>
    intro acc
    unfold readBlocksAcc
    have hrb : dA.read_block x = dB.read_block x := by
      unfold Disk.read_block
      rw [hmax, hblocks]
    rw [hrb]
    cases dB.read_block x with
    | error e => rfl
    | ok s => exact ih (acc ++ s)

/-- `_resolve` depends only on the cursor, the capacity, and the type, parent and
children of each stored inode. -/
theorem resolveLoop_congr {dA dB : Disk}
    (hmax : dA.superblock.max_inodes = dB.superblock.max_inodes)
    (hshape : ∀ i,
      (dA.inodes.get? i).map inodeShape = (dB.inodes.get? i).map inodeShape) :
    ∀ (parts : List Str) (curr : Nat),
      resolveLoop dA curr parts = resolveLoop dB curr parts := by
  intro parts
  induction parts with
  | nil => intro curr; rfl
  | cons part rest ih =>
    intro curr
    have hread : ∀ c : Nat,
        (dA.read_inode c = .error .indexError ∧
          dB.read_inode c = .error .indexError) ∨
        (dA.read_inode c = .ok none ∧ dB.read_inode c = .ok none) ∨
        (∃ inoA inoB, dA.read_inode c = .ok (some inoA) ∧
          dB.read_inode c = .ok (some inoB) ∧ inoA.type = inoB.type ∧
          inoA.parent = inoB.parent ∧ inoA.children = inoB.children) := by
      intro c
      unfold Disk.read_inode
      rw [hmax]
      by_cases hc : c < dB.superblock.max_inodes
      · rw [if_pos hc, if_pos hc]
        have hs := hshape c
        cases hA : dA.inodes.get? c with
        | none =>
          rw [hA] at hs
          cases hB : dB.inodes.get? c with
          | none => exact Or.inl ⟨rfl, rfl⟩
          | some vB => rw [hB] at hs; simp at hs
        | some vA =>
          rw [hA] at hs
          cases hB : dB.inodes.get? c with
          | none => rw [hB] at hs; simp at hs
          | some vB =>
            rw [hB] at hs
            simp at hs
            cases vA with
            | none =>
              cases vB with
              | none => exact Or.inr (Or.inl ⟨rfl, rfl⟩)
              | some inoB => simp [inodeShape] at hs
            | some inoA =>
              cases vB with
              | none => simp [inodeShape] at hs
              | some inoB =>
                simp [inodeShape] at hs
                exact Or.inr (Or.inr ⟨inoA, inoB, rfl, rfl, hs.1, hs.2.1,
                  hs.2.2⟩)
      · rw [if_neg hc, if_neg hc]
        exact Or.inl ⟨rfl, rfl⟩
    unfold resolveLoop
    by_cases h1 : part = [] ∨ part = ['.']
    · rw [if_pos h1, if_pos h1]
      exact ih curr
    · rw [if_neg h1, if_neg h1]
      by_cases h2 : part = ['.', '.']
      · rw [if_pos h2, if_pos h2]
        rcases hread curr with ⟨hA, hB⟩ | ⟨hA, hB⟩ |
          ⟨inoA, inoB, hA, hB, ht, hp, hch⟩
        · rw [hA, hB]
        · rw [hA, hB]
        · rw [hA, hB]
          show resolveLoop dA (inoA.parent.getD 0) rest =
            resolveLoop dB (inoB.parent.getD 0) rest
          rw [hp]
          exact ih _
      · rw [if_neg h2, if_neg h2]
        rcases hread curr with ⟨hA, hB⟩ | ⟨hA, hB⟩ |
          ⟨inoA, inoB, hA, hB, ht, hp, hch⟩
        · rw [hA, hB]
        · rw [hA, hB]
        · rw [hA, hB]
          show (if inoA.type ≠ "dir" then (.error .notADirectory : Except Err Nat)
            else match dictFind? inoA.children part with
              | none => .error .fileNotFound
              | some child => resolveLoop dA child rest) =
            (if inoB.type ≠ "dir" then (.error .notADirectory : Except Err Nat)
            else match dictFind? inoB.children part with
              | none => .error .fileNotFound
              | some child => resolveLoop dB child rest)
          rw [ht, hch]
          by_cases hd : inoB.type ≠ "dir"
          · rw [if_pos hd, if_pos hd]
          · rw [if_neg hd, if_neg hd]
            cases dictFind? inoB.children part with
            | none => rfl
            | some child => exact ih child

/-- Success shape of the allocation loop: the appended block ids read back as the
concatenated chunks, and slots that were already used are untouched. -/
theorem writeLoop_ok (inode_id : Nat) :
    ∀ (chunks : List (List Char)) (d : Disk) (ino : Inode) (d' : Disk)
      (ino' : Inode),
    writeLoop inode_id d ino chunks = (d', ino', none) →
    ∃ ids : List Nat,
      ino' = { ino with blocks := ino.blocks ++ ids } ∧
      d'.superblock.max_blocks = d.superblock.max_blocks ∧
      d'.superblock.max_inodes = d.superblock.max_inodes ∧
      d'.inodes = d.inodes ∧
      (∀ j, d.superblock.free_blocks.get? j = some false →
        d'.blocks.get? j = d.blocks.get? j ∧
          d'.superblock.free_blocks.get? j = some false) ∧
      (∀ acc, readBlocksAcc d' ids acc = .ok (acc ++ chunks.flatten)) := by
  intro chunks
  induction chunks with
  | nil =>
    intro d ino d' ino' h
    simp [writeLoop] at h
    obtain ⟨rfl, rfl⟩ := h
    refine ⟨[], by simp, rfl, rfl, rfl, fun j hj => ⟨rfl, hj⟩, fun acc => by
      simp [readBlocksAcc]⟩
  | cons chunk rest ih =>
    intro d ino d' ino' h
    unfold writeLoop at h
    cases ha : d.superblock.alloc_block with
    | none =>
      rw [ha] at h
      simp at h
    | some p =>
      obtain ⟨b, sbA⟩ := p
      rw [ha] at h
      simp only [] at h
      obtain ⟨hbtrue, hsbA, hblen⟩ := alloc_block_some ha
      cases hw : Disk.write_block { d with superblock := sbA } b chunk with
      | error e =>
        rw [hw] at h
        simp at h
      | ok d₂ =>
        rw [hw] at h
        obtain ⟨hd₂, hbmax, hchunk, hblks⟩ := write_block_ok hw
        obtain ⟨ids, hino, hmaxB, hmaxI, hinodes, hframe, hreads⟩ :=
          ih d₂ { ino with blocks := ino.blocks ++ [b] } d' ino' h
        have hd₂sup : d₂.superblock = sbA := by rw [hd₂]
        have hd₂blocks : d₂.blocks = d.blocks.set b chunk := by rw [hd₂]
        have hd₂inodes : d₂.inodes = d.inodes := by rw [hd₂]
        refine ⟨b :: ids, ?_, ?_, ?_, ?_, ?_, ?_⟩
        · rw [hino]
          simp
        · rw [hmaxB, hd₂sup, hsbA]
        · rw [hmaxI, hd₂sup, hsbA]
        · rw [hinodes, hd₂inodes]
        · intro j hj
          have hjb : j ≠ b := by
            intro hcontra
            subst hcontra
            rw [hj] at hbtrue
            exact absurd hbtrue (by simp)
          have hj₂ : d₂.superblock.free_blocks.get? j = some false := by
            rw [hd₂sup, hsbA]
            simp only []
            rw [List.get?_set_ne _ _ (fun hc => hjb hc.symm)]
            exact hj
          obtain ⟨hf1, hf2⟩ := hframe j hj₂
          refine ⟨?_, hf2⟩
          rw [hf1, hd₂blocks, List.get?_set_ne _ _ (fun hc => hjb hc.symm)]
        · intro acc
          unfold readBlocksAcc
          have hb₂ : d₂.superblock.free_blocks.get? b = some false := by
            rw [hd₂sup, hsbA]
            simp only []
            exact List.get?_set_eq_of_lt _ hblen
          have hpayload : d'.blocks.get? b = some chunk := by
            rw [(hframe b hb₂).1, hd₂blocks]
            exact List.get?_set_eq_of_lt _ (by simpa using hblks)
          have hrb : d'.read_block b = .ok chunk := by
            unfold Disk.read_block
            rw [if_pos (by
              rw [hmaxB, hd₂sup]
              exact hbmax)]
            rw [hpayload]
          rw [hrb]
          show readBlocksAcc d' ids (acc ++ chunk) =
            Except.ok (acc ++ (chunk :: rest).flatten)
          rw [hreads (acc ++ chunk)]
          simp

/-- Assembly step for the round trip: after a successful allocation loop and the
final inode write-back, `read` on the resulting volume returns the written data. -/
theorem write_read_roundtrip_aux {fs : FileSystem} {path : Str}
    {data : List Char} {inode_id : Nat} {ino ino₂ ino₃ : Inode} {d₂ d₄ : Disk}
    (hres : fs.resolve path = .ok inode_id)
    (hread : fs.disk.read_inode inode_id = .ok (some ino))
    (htype : ¬ino.type ≠ "file")
    (hbs : ¬(ino.blocks.foldl SuperBlock.free_block
      fs.disk.superblock).block_size = 0)
    (hino₃ : ino₃ = { ino₂ with size := data.length, modified := 0 })
    (hloop : writeLoop inode_id
      (Disk.setSlot
        { fs.disk with
          superblock := ino.blocks.foldl SuperBlock.free_block
            fs.disk.superblock }
        inode_id { ino with blocks := [] })
      { ino with blocks := [] }
      (chunksOf (ino.blocks.foldl SuperBlock.free_block
        fs.disk.superblock).block_size data) = (d₂, ino₂, none))
    (hwi : (d₂.setSlot inode_id ino₃).write_inode inode_id (some ino₃) =
      .ok d₄) :
    FileSystem.read ⟨d₄, fs.cwd⟩ path = .ok data := by
  obtain ⟨ids, hino₂, hmaxB, hmaxI, hinodes, hframe, hreads⟩ :=
    writeLoop_ok inode_id _ _ _ _ _ hloop
  obtain ⟨hid_lt, hslot, hid_len⟩ := read_inode_ok hread
  obtain ⟨hd₄, -, -⟩ := write_inode_ok hwi
  have hfields := foldl_free_block_fields fs.disk.superblock ino.blocks
  have hd₄inodes : d₄.inodes = fs.disk.inodes.set inode_id (some ino₃) := by
    rw [hd₄]
    simp only [Disk.setSlot]
    rw [hinodes]
    simp only [Disk.setSlot, List.set_set]
  have hd₄sup : d₄.superblock = d₂.superblock := by
    rw [hd₄]
    rfl
  have hd₄blocks : d₄.blocks = d₂.blocks := by
    rw [hd₄]
    rfl
  have hblocks₃ : ino₃.blocks = ids := by
    rw [hino₃, hino₂]
    simp
  have hshape : ∀ i,
      ((⟨d₄, fs.cwd⟩ : FileSystem).disk.inodes.get? i).map inodeShape =
        (fs.disk.inodes.get? i).map inodeShape := by
    intro i
    simp only []
    rw [hd₄inodes]
    by_cases hi : i = inode_id
    · subst hi
      rw [List.get?_set_eq_of_lt _ hid_len, hslot]
      rw [hino₃, hino₂]
      simp [inodeShape]
    · rw [List.get?_set_ne _ _ (fun hc => hi hc.symm)]
  have hmaxI' : d₄.superblock.max_inodes = fs.disk.superblock.max_inodes := by
    rw [hd₄sup, hmaxI]
    simp only [Disk.setSlot]
    exact hfields.1
  have hres' : (⟨d₄, fs.cwd⟩ : FileSystem).resolve path = .ok inode_id := by
    unfold FileSystem.resolve at hres ⊢
    by_cases hp : path = ['/']
    · rw [if_pos hp] at hres ⊢
      exact hres
    · rw [if_neg hp] at hres ⊢
      rw [← hres]
      exact resolveLoop_congr hmaxI' hshape _ _
  have hread' : (⟨d₄, fs.cwd⟩ : FileSystem).disk.read_inode inode_id =
      .ok (some ino₃) := by
    unfold Disk.read_inode
    rw [if_pos (by rw [hmaxI']; exact hid_lt)]
    simp only []
    rw [hd₄inodes, List.get?_set_eq_of_lt _ hid_len]
  simp only [FileSystem.read, hres', hread']
  rw [if_neg (by
    rw [hino₃, hino₂]
    simpa using htype)]
  rw [hblocks₃]
  have hcongr := readBlocksAcc_congr (⟨d₄, fs.cwd⟩ : FileSystem).disk d₂
    (by simp only []; rw [hd₄sup]) (by simp only []; exact hd₄blocks)
  rw [hcongr ids []]
  rw [hreads []]
  simp only [List.nil_append]
  rw [chunksOf_join (by omega) data]

/-- C3: if `write(f, d)` succeeds then an immediately following `read(f)` returns
exactly `d` — blocks are written as consecutive chunks of at most `block_size`
characters and read back concatenated in stored order. -/
theorem write_read_roundtrip {fs fs' : FileSystem} {path : Str}
    {data : List Char}
    (h : fs.write path data = (fs', none)) :
    fs'.read path = .ok data := by
  cases hres : fs.resolve path with
  | error e =>
    simp only [FileSystem.write, hres] at h
    simp at h
  | ok inode_id =>
    cases hread : fs.disk.read_inode inode_id with
    | error e =>
      simp only [FileSystem.write, hres, hread] at h
      simp at h
    | ok v =>
      cases v with
      | none =>
        simp only [FileSystem.write, hres, hread] at h
        simp at h
      | some ino =>
        simp only [FileSystem.write, hres, hread] at h
        by_cases htype : ino.type ≠ "file"
        · rw [if_pos htype] at h
          simp at h
        · rw [if_neg htype] at h
          by_cases hbs :
            (ino.blocks.foldl SuperBlock.free_block
              fs.disk.superblock).block_size = 0
          · rw [if_pos hbs] at h
            simp at h
          · rw [if_neg hbs] at h
            by_cases hpre :
              (data.length +
                (ino.blocks.foldl SuperBlock.free_block
                  fs.disk.superblock).block_size - 1) /
                (ino.blocks.foldl SuperBlock.free_block
                  fs.disk.superblock).block_size >
                (ino.blocks.foldl SuperBlock.free_block
                  fs.disk.superblock).get_free_block_count
            · rw [if_pos hpre] at h
              simp at h
            · rw [if_neg hpre] at h
              cases hloop : writeLoop inode_id
                (Disk.setSlot
                  { fs.disk with
                    superblock := ino.blocks.foldl SuperBlock.free_block
                      fs.disk.superblock }
                  inode_id { ino with blocks := [] })
                { ino with blocks := [] }
                (chunksOf
                  (ino.blocks.foldl SuperBlock.free_block
                    fs.disk.superblock).block_size data) with
              | mk d₂ q =>
                obtain ⟨ino₂, err⟩ := q
                rw [hloop] at h
                cases err with
                | some e => simp at h
                | none =>
                  simp only [] at h
                  cases hwi : Disk.write_inode
                    (d₂.setSlot inode_id
                      { ino₂ with size := data.length, modified := 0 })
                    inode_id
                    (some { ino₂ with size := data.length, modified := 0 }) with
                  | error e =>
                    rw [hwi] at h
                    simp at h
                  | ok d₄ =>
                    rw [hwi] at h
                    simp at h
                    obtain ⟨rfl, -⟩ := h
                    exact write_read_roundtrip_aux hres hread htype hbs rfl
                      hloop hwi

/-- Witness for `write_read_roundtrip` at a concrete volume: writing `"abcd"` to
the empty file `/f` succeeds and reading it back returns `"abcd"`. -/
theorem write_read_roundtrip_witness :
    c3fs.write "/f".toList "abcd".toList =
      ((c3fs.write "/f".toList "abcd".toList).1, none) ∧
    (c3fs.write "/f".toList "abcd".toList).1.read "/f".toList =
      .ok "abcd".toList :=
  ⟨by decide,
    @write_read_roundtrip c3fs ((c3fs.write "/f".toList "abcd".toList).1)
      "/f".toList "abcd".toList (by decide)⟩

/-! ## C10: only cd moves the cursor -/

theorem mkdir_cwd (fs : FileSystem) (n : Str) : (fs.mkdir n).1.cwd = fs.cwd := by
  unfold FileSystem.mkdir
  repeat (first | rfl | split | dsimp only [])

theorem create_cwd (fs : FileSystem) (n : Str) :
    (fs.create n).1.cwd = fs.cwd := by
  unfold FileSystem.create
  repeat (first | rfl | split | dsimp only [])

theorem write_cwd (fs : FileSystem) (p : Str) (data : List Char) :
    (fs.write p data).1.cwd = fs.cwd := by
  unfold FileSystem.write
  repeat (first | rfl | split | dsimp only [])

theorem rm_cwd (fs : FileSystem) (fuel : Nat) (p : Str) (r : Bool) :
    (fs.rm fuel p r).1.cwd = fs.cwd := by
  unfold FileSystem.rm
  dsimp only []
  repeat (first | rfl | split | dsimp only [])

/-- C10: among the public operations only a successful `cd` modifies the `cwd`
cursor; a failing `cd` leaves it unchanged; and a recursive `rm` of the very
directory the cursor refers to succeeds and leaves `cwd` still holding the id of
the now-freed slot. -/
theorem cwd_only_cd :
    (∀ (fuel : Nat) (fs : FileSystem) (op : Op), (∀ p, op ≠ .cdOp p) →
      (applyOp fuel fs op).cwd = fs.cwd) ∧
    (∀ (fs : FileSystem) (path : Str) (e : Err),
      (fs.cd path).2 = some e → (fs.cd path).1.cwd = fs.cwd) ∧
    (c10fs.resolve "/d".toList = .ok c10fs.cwd ∧ c10fs.cwd = 1 ∧
      (c10fs.rm 20 "/d".toList true).2 = none ∧
      (c10fs.rm 20 "/d".toList true).1.cwd = 1 ∧
      (c10fs.rm 20 "/d".toList true).1.disk.inodes.get? 1 = some none ∧
      (c10fs.rm 20 "/d".toList true).1.disk.superblock.free_inodes.get? 1 =
        some true) := by
  refine ⟨?_, ?_, by decide, by decide, by decide, by decide, by decide,
    by decide⟩
  · intro fuel fs op hop
    cases op with
    | mkdirOp n => exact mkdir_cwd fs n
    | createOp n => exact create_cwd fs n
    | cdOp p => exact absurd rfl (hop p)
    | writeOp p d => exact write_cwd fs p d
    | readOp p => rfl
    | rmOp p r => exact rm_cwd fs fuel p r
    | lsOp => rfl
    | pwdOp => rfl
    | statOp p => rfl
    | duOp => rfl
  · intro fs path e
    show (fs.cd path).2 = some e → (fs.cd path).1.cwd = fs.cwd
    unfold FileSystem.cd
    split
    · intro _
      rfl
    · split
      · intro _
        rfl
      · intro _
        rfl
      · split
        · intro _
          rfl
        · intro hcontra
          exact absurd hcontra (by simp)

/-- Witness for `cwd_only_cd` at concrete inputs. -/
theorem cwd_only_cd_witness :
    (∀ p, (Op.rmOp "/d".toList true) ≠ Op.cdOp p) ∧
    (applyOp 20 c10fs (Op.rmOp "/d".toList true)).cwd = c10fs.cwd ∧
    ((c10fs.cd "zz".toList).2 = some .fileNotFound ∧
      (c10fs.cd "zz".toList).1.cwd = c10fs.cwd) :=
  ⟨fun p h => Op.noConfusion h,
    cwd_only_cd.1 20 c10fs (Op.rmOp "/d".toList true)
      (fun p h => Op.noConfusion h),
    by decide,
    cwd_only_cd.2.1 c10fs "zz".toList .fileNotFound (by decide)⟩

/-! ## C9: allocator/storage synchronization invariant -/

theorem alloc_inode_some {sb sb' : SuperBlock} {i : Nat}
    (h : sb.alloc_inode = some (i, sb')) :
    sb.free_inodes.get? i = some true ∧
      sb' = { sb with free_inodes := sb.free_inodes.set i false } ∧
      i < sb.free_inodes.length := by
  unfold SuperBlock.alloc_inode at h
  cases hr : allocScan sb.free_inodes with
  | none => rw [hr] at h; exact absurd h (by simp)
  | some p =>
    rw [hr] at h
    simp at h
    obtain ⟨rfl, rfl⟩ := h
    obtain ⟨h1, -, h3⟩ := allocScan_some hr
    refine ⟨h1, by rw [h3], ?_⟩
    by_contra hlen
    rw [List.get?_eq_none.mpr (by omega)] at h1
    exact absurd h1 (by simp)

/-- `free_inode` changes only `free_inodes`, and preserves its length. -/
theorem free_inode_fields (sb : SuperBlock) (i : Nat) :
    (sb.free_inode i).max_inodes = sb.max_inodes ∧
    (sb.free_inode i).max_blocks = sb.max_blocks ∧
    (sb.free_inode i).block_size = sb.block_size ∧
    (sb.free_inode i).free_blocks = sb.free_blocks ∧
    (sb.free_inode i).free_inodes.length = sb.free_inodes.length := by
  unfold SuperBlock.free_inode
  split <;> simp

theorem set_oob {α : Type} {l : List α} {i : Nat} {v : α}
    (h : l.length ≤ i) : l.set i v = l := by
  induction l generalizing i with
  | nil => simp
  | cons x xs ih =>
    cases i with
    | zero => simp at h
    | succ n =>
      simp at h
      simp [List.set]
      exact ih (by omega)

theorem getD_set_self {α : Type} {l : List α} {i : Nat} {v d : α}
    (h : i < l.length) : (l.set i v).getD i d = v := by
  rw [List.getD_eq_get?, List.get?_set_eq_of_lt _ h]
  rfl

theorem getD_set_other {α : Type} {l : List α} {i j : Nat} {v d : α}
    (h : i ≠ j) : (l.set i v).getD j d = l.getD j d := by
  rw [List.getD_eq_get?, List.get?_set_ne _ _ h, ← List.getD_eq_get?]

/-- Transporting `InodeSync` along a change that leaves `free_inodes` and
`max_inodes` alone and either leaves the slots alone or overwrites one used slot
with another record. -/
theorem sync_transport {d d' : Disk} (idx : Nat) (h : InodeSync d)
    (hfi : d'.superblock.free_inodes = d.superblock.free_inodes)
    (hmax : d'.superblock.max_inodes = d.superblock.max_inodes)
    (hslot : d'.inodes = d.inodes ∨
      ∃ w, d'.inodes = d.inodes.set idx (some w))
    (hsome : idx < d.inodes.length → (d.inodes.getD idx none).isSome = true) :
    InodeSync d' := by
  obtain ⟨h1, h2, h3⟩ := h
  refine ⟨?_, ?_, ?_⟩
  · rcases hslot with hs | ⟨w, hs⟩ <;> rw [hs, hmax] <;> simp [h1]
  · rw [hfi, hmax]
    exact h2
  · intro j hj
    rw [hmax] at hj
    rw [hfi]
    rcases hslot with hs | ⟨w, hs⟩
    · rw [hs]
      exact h3 j hj
    · rw [hs]
      by_cases hji : j = idx
      · subst hji
        by_cases hlt : j < d.inodes.length
        · rw [getD_set_self hlt]
          have := h3 j hj
          rw [hsome hlt] at this
          simp only [Option.isSome_some]
          exact this
        · rw [set_oob (by omega)]
          exact h3 j hj
      · rw [getD_set_other (fun hc => hji hc.symm)]
        exact h3 j hj

/-- `write_inode` succeeds on an in-range, in-bounds slot. -/
theorem write_inode_ok_of {d : Disk} {i : Nat}
    (hi : i < d.superblock.max_inodes) (hlen : i < d.inodes.length)
    (v : Option Inode) :
    d.write_inode i v = .ok { d with inodes := d.inodes.set i v } := by
  unfold Disk.write_inode
  rw [if_pos hi]
  cases hg : d.inodes.get? i with
  | none =>
    rw [List.get?_eq_none] at hg
    omega
  | some w => rfl

/-- Freeing a used slot while writing `None` into it preserves the invariant. -/
theorem sync_free_none {d : Disk} (h : InodeSync d) {i : Nat}
    (hi : i < d.superblock.max_inodes) :
    InodeSync
      { d with
        superblock := d.superblock.free_inode i,
        inodes := d.inodes.set i none } := by
  obtain ⟨h1, h2, h3⟩ := h
  have hffields := free_inode_fields d.superblock i
  refine ⟨?_, ?_, ?_⟩
  · simp [hffields.1, h1]
  · rw [hffields.1]
    rw [show (d.superblock.free_inode i).free_inodes =
      d.superblock.free_inodes.set i true by
        unfold SuperBlock.free_inode
        rw [if_pos hi]]
    simp [h2]
  · intro j hj
    rw [hffields.1] at hj
    rw [show (d.superblock.free_inode i).free_inodes =
      d.superblock.free_inodes.set i true by
        unfold SuperBlock.free_inode
        rw [if_pos hi]]
    by_cases hji : j = i
    · subst hji
      rw [getD_set_self (by omega), getD_set_self (by omega)]
      rfl
    · rw [getD_set_other (fun hc => hji hc.symm),
        getD_set_other (fun hc => hji hc.symm)]
      exact h3 j hj

/-- The `free_inode(id); write_inode(id, None)` tail of the two `rm` paths:
the write succeeds and the result satisfies the invariant. -/
theorem fin_sync {d : Disk} (h : InodeSync d) {i : Nat}
    (hi : i < d.superblock.max_inodes) :
    ({ d with superblock := d.superblock.free_inode i } : Disk).write_inode i
        none =
      .ok
        { d with
          superblock := d.superblock.free_inode i,
          inodes := d.inodes.set i none } ∧
    InodeSync
      { d with
        superblock := d.superblock.free_inode i,
        inodes := d.inodes.set i none } := by
  have hffields := free_inode_fields d.superblock i
  constructor
  · rw [write_inode_ok_of (by
        show i < (d.superblock.free_inode i).max_inodes
        rw [hffields.1]
        exact hi)
      (by
        show i < d.inodes.length
        rw [h.1]
        exact hi) none]
  · exact sync_free_none h hi

/-- From the invariant, a stored slot implies the allocator marks it used. -/
theorem sync_used_of_slot {d : Disk} (h : InodeSync d) {i : Nat} {w : Inode}
    (hget : d.inodes.get? i = some (some w))
    (hi : i < d.superblock.max_inodes) :
    d.superblock.free_inodes.get? i = some false := by
  obtain ⟨h1, h2, h3⟩ := h
  have hgd : d.inodes.getD i none = some w := by
    rw [List.getD_eq_get?, hget]
    rfl
  have hmain := h3 i hi
  rw [hgd] at hmain
  have hilen : i < d.superblock.free_inodes.length := by omega
  cases hg : d.superblock.free_inodes.get? i with
  | none =>
    rw [List.get?_eq_none] at hg
    omega
  | some b =>
    have hgdf : d.superblock.free_inodes.getD i true = b := by
      rw [List.getD_eq_get?, hg]
      rfl
    rw [hgdf] at hmain
    cases b with
    | false => rfl
    | true => simp at hmain

/-- The inode-creation tail shared by `mkdir` and `create`: both `write_inode`
calls succeed, and the final state satisfies the invariant. -/
theorem create_step_sync {d : Disk} {cwd inode_id : Nat}
    {parent parent' newIno : Inode} {sb' : SuperBlock}
    (h : InodeSync d)
    (hr : d.read_inode cwd = .ok (some parent))
    (ha : d.superblock.alloc_inode = some (inode_id, sb')) :
    ((Disk.setSlot { d with superblock := sb' } cwd parent').write_inode
        inode_id (some newIno) =
      .ok ((Disk.setSlot { d with superblock := sb' } cwd parent').setSlot
        inode_id newIno)) ∧
    (((Disk.setSlot { d with superblock := sb' } cwd parent').setSlot inode_id
        newIno).write_inode cwd (some parent') =
      .ok ((((Disk.setSlot { d with superblock := sb' } cwd parent')).setSlot
        inode_id newIno).setSlot cwd parent')) ∧
    InodeSync ((((Disk.setSlot { d with superblock := sb' } cwd
      parent')).setSlot inode_id newIno).setSlot cwd parent') := by
  obtain ⟨hcwd_lt, hcwd_get, hcwd_len⟩ := read_inode_ok hr
  obtain ⟨hitrue, hsb', hilen⟩ := alloc_inode_some ha
  have hmax_eq : d.superblock.free_inodes.length = d.superblock.max_inodes :=
    h.2.1
  have hlen_eq : d.inodes.length = d.superblock.max_inodes := h.1
  have hid_lt : inode_id < d.superblock.max_inodes := by omega
  have hid_len : inode_id < d.inodes.length := by omega
  have hcwd_false : d.superblock.free_inodes.get? cwd = some false :=
    sync_used_of_slot h hcwd_get hcwd_lt
  have hne : inode_id ≠ cwd := by
    intro hc
    subst hc
    rw [hitrue] at hcwd_false
    exact absurd hcwd_false (by simp)
  have hok1 : (Disk.setSlot { d with superblock := sb' } cwd
      parent').write_inode inode_id (some newIno) =
      .ok ((Disk.setSlot { d with superblock := sb' } cwd parent').setSlot
        inode_id newIno) := by
    apply write_inode_ok_of
    · show inode_id < sb'.max_inodes
      rw [hsb']
      exact hid_lt
    · show inode_id < (d.inodes.set cwd (some parent')).length
      simp [hid_len]
  have hok2 : ((Disk.setSlot { d with superblock := sb' } cwd
      parent').setSlot inode_id newIno).write_inode cwd (some parent') =
      .ok ((((Disk.setSlot { d with superblock := sb' } cwd parent')).setSlot
        inode_id newIno).setSlot cwd parent') := by
    apply write_inode_ok_of
    · show cwd < sb'.max_inodes
      rw [hsb']
      exact hcwd_lt
    · show cwd < ((d.inodes.set cwd (some parent')).set inode_id
        (some newIno)).length
      simp [hcwd_len]
  refine ⟨hok1, hok2, ?_⟩
  refine ⟨?_, ?_, ?_⟩
  · show (((d.inodes.set cwd (some parent')).set inode_id
      (some newIno)).set cwd (some parent')).length = sb'.max_inodes
    rw [hsb']
    simp [hlen_eq]
  · show sb'.free_inodes.length = sb'.max_inodes
    rw [hsb']
    simp [hmax_eq]
  · intro j hj
    have hjmax : j < d.superblock.max_inodes := by
      rw [hsb'] at hj
      exact hj
    show ((((d.inodes.set cwd (some parent')).set inode_id
      (some newIno)).set cwd (some parent')).getD j none).isSome =
      !(sb'.free_inodes.getD j true)
    rw [hsb']
    by_cases hjc : j = cwd
    · subst hjc
      rw [getD_set_self (by simp [hcwd_len])]
      rw [show (d.superblock.free_inodes.set inode_id false).getD j true =
        d.superblock.free_inodes.getD j true from
          getD_set_other hne]
      rw [show d.superblock.free_inodes.getD j true = false by
        rw [List.getD_eq_get?, hcwd_false]
        rfl]
      rfl
    · rw [getD_set_other (fun hc => hjc hc.symm)]
      by_cases hji : j = inode_id
      · subst hji
        rw [getD_set_self (by simp [hid_len])]
        rw [getD_set_self (by omega)]
        rfl
      · rw [getD_set_other (fun hc => hji hc.symm),
          getD_set_other (fun hc => hjc hc.symm),
          getD_set_other (fun hc => hji hc.symm)]
        exact h.2.2 j hjmax

theorem getD_isSome_of_get? {l : List (Option Inode)} {i : Nat} {w : Inode}
    (h : l.get? i = some (some w)) : (l.getD i none).isSome = true := by
  rw [List.getD_eq_get?, h]
  rfl

theorem mkdir_sync {fs : FileSystem} {n : Str} (h : InodeSync fs.disk) :
    InodeSync (fs.mkdir n).1.disk := by
  unfold FileSystem.mkdir
  split
  · exact h
  · exact h
  · next parent heqr =>
    split
    · exact h
    · split
      · exact h
      · split
        · exact h
        · split
          · exact h
          · next inode_id sb' halloc =>
            dsimp only []
            have hstep := @create_step_sync fs.disk fs.cwd inode_id parent
              { parent with children := dictInsert parent.children n inode_id }
              (Inode.new n "dir" (some fs.cwd)) sb' h heqr halloc
            split
            · next e hw1 =>
              exact absurd (hstep.1.symm.trans hw1) (by simp)
            · next d₂ hw1 =>
              have hd₂ := hstep.1.symm.trans hw1
              simp at hd₂
              subst hd₂
              split
              · next e hw2 =>
                exact absurd (hstep.2.1.symm.trans hw2) (by simp)
              · next d₃ hw2 =>
                have hd₃ := hstep.2.1.symm.trans hw2
                simp at hd₃
                subst hd₃
                exact hstep.2.2

theorem create_sync {fs : FileSystem} {n : Str} (h : InodeSync fs.disk) :
    InodeSync (fs.create n).1.disk := by
  unfold FileSystem.create
  split
  · exact h
  · exact h
  · next parent heqr =>
    split
    · exact h
    · split
      · exact h
      · split
        · exact h
        · split
          · exact h
          · next inode_id sb' halloc =>
            dsimp only []
            have hstep := @create_step_sync fs.disk fs.cwd inode_id parent
              { parent with children := dictInsert parent.children n inode_id }
              (Inode.new n "file" (some fs.cwd)) sb' h heqr halloc
            split
            · next e hw1 =>
              exact absurd (hstep.1.symm.trans hw1) (by simp)
            · next d₂ hw1 =>
              have hd₂ := hstep.1.symm.trans hw1
              simp at hd₂
              subst hd₂
              split
              · next e hw2 =>
                exact absurd (hstep.2.1.symm.trans hw2) (by simp)
              · next d₃ hw2 =>
                have hd₃ := hstep.2.1.symm.trans hw2
                simp at hd₃
                subst hd₃
                exact hstep.2.2

theorem cd_disk (fs : FileSystem) (p : Str) : (fs.cd p).1.disk = fs.disk := by
  unfold FileSystem.cd
  repeat (first | rfl | split | dsimp only [])

theorem writeLoop_sync_facts (inode_id : Nat) :
    ∀ (chunks : List (List Char)) (d : Disk) (ino : Inode),
    (writeLoop inode_id d ino chunks).1.superblock.free_inodes =
      d.superblock.free_inodes ∧
    (writeLoop inode_id d ino chunks).1.superblock.max_inodes =
      d.superblock.max_inodes ∧
    ((writeLoop inode_id d ino chunks).1.inodes = d.inodes ∨
      ∃ w, (writeLoop inode_id d ino chunks).1.inodes =
        d.inodes.set inode_id (some w)) := by
  intro chunks
  induction chunks with
  | nil => intro d ino; exact ⟨rfl, rfl, Or.inl rfl⟩
  | cons chunk rest ih =>
    intro d ino
    unfold writeLoop
    cases ha : d.superblock.alloc_block with
    | none =>
      refine ⟨?_, ?_, Or.inr ⟨{ ino with blocks := [] }, rfl⟩⟩
      · exact (foldl_free_block_fields d.superblock ino.blocks).2.2.2
      · exact (foldl_free_block_fields d.superblock ino.blocks).1
    | some p =>
      obtain ⟨b, sbA⟩ := p
      obtain ⟨hbtrue, hsbA, hblt⟩ := alloc_block_some ha
      dsimp only []
      cases hw : Disk.write_block { d with superblock := sbA } b chunk with
      | error e =>
        refine ⟨?_, ?_, Or.inr ⟨ino, rfl⟩⟩
        · show sbA.free_inodes = d.superblock.free_inodes
          rw [hsbA]
        · show sbA.max_inodes = d.superblock.max_inodes
          rw [hsbA]
      | ok d₂ =>
        obtain ⟨hd₂, -, -, -⟩ := write_block_ok hw
        obtain ⟨ih1, ih2, ih3⟩ := ih d₂ { ino with blocks := ino.blocks ++ [b] }
        have hsup : d₂.superblock = sbA := by rw [hd₂]
        have hino : d₂.inodes = d.inodes := by rw [hd₂]
        refine ⟨?_, ?_, ?_⟩
        · rw [ih1, hsup, hsbA]
        · rw [ih2, hsup, hsbA]
        · rcases ih3 with h3 | ⟨w, h3⟩
          · exact Or.inl (by rw [h3, hino])
          · exact Or.inr ⟨w, by rw [h3, hino]⟩

theorem write_sync {fs : FileSystem} {path : Str} {data : List Char}
    (h : InodeSync fs.disk) : InodeSync (fs.write path data).1.disk := by
  unfold FileSystem.write
  split
  · exact h
  · next inode_id heq =>
    split
    · exact h
    · exact h
    · next ino heq2 =>
      split
      · exact h
      · dsimp only []
        obtain ⟨hid_lt, hid_get, hid_len⟩ := read_inode_ok heq2
        have hfold := foldl_free_block_fields fs.disk.superblock ino.blocks
        have hd₁ : InodeSync (Disk.setSlot
            { fs.disk with
              superblock := ino.blocks.foldl SuperBlock.free_block
                fs.disk.superblock }
            inode_id { ino with blocks := [] }) := by
          apply sync_transport inode_id h
          · exact hfold.2.2.2
          · exact hfold.1
          · exact Or.inr ⟨{ ino with blocks := [] }, rfl⟩
          · intro _
            exact getD_isSome_of_get? hid_get
        have hd₁slot : ∀ hx : inode_id <
            (Disk.setSlot
              { fs.disk with
                superblock := ino.blocks.foldl SuperBlock.free_block
                  fs.disk.superblock }
              inode_id { ino with blocks := [] }).inodes.length,
            ((Disk.setSlot
              { fs.disk with
                superblock := ino.blocks.foldl SuperBlock.free_block
                  fs.disk.superblock }
              inode_id { ino with blocks := [] }).inodes.getD inode_id
                none).isSome = true := by
          intro hx
          show ((fs.disk.inodes.set inode_id
            (some { ino with blocks := [] })).getD inode_id none).isSome = true
          rw [getD_set_self (by simpa [Disk.setSlot] using hx)]
          rfl
        split
        · exact hd₁
        · split
          · exact hd₁
          · have hfacts := writeLoop_sync_facts inode_id
              (chunksOf
                (ino.blocks.foldl SuperBlock.free_block
                  fs.disk.superblock).block_size data)
              (Disk.setSlot
                { fs.disk with
                  superblock := ino.blocks.foldl SuperBlock.free_block
                    fs.disk.superblock }
                inode_id { ino with blocks := [] })
              { ino with blocks := [] }
            split
            · next d₂ x e hloop =>
              rw [hloop] at hfacts
              exact sync_transport inode_id hd₁ hfacts.1 hfacts.2.1
                hfacts.2.2 hd₁slot
            · next d₂ ino₂ hloop =>
              rw [hloop] at hfacts
              have hd₂ : InodeSync d₂ :=
                sync_transport inode_id hd₁ hfacts.1 hfacts.2.1
                  hfacts.2.2 hd₁slot
              have hd₂slot : inode_id < d₂.inodes.length →
                  ((d₂.inodes.getD inode_id none)).isSome = true := by
                intro hx
                rcases hfacts.2.2 with hf | ⟨w, hf⟩
                · rw [hf]
                  exact hd₁slot (by rw [hf] at hx; exact hx)
                · rw [hf]
                  rw [hf] at hx
                  simp at hx
                  rw [getD_set_self (by simpa using hx)]
                  rfl
              have hd₃ : InodeSync (d₂.setSlot inode_id
                  { ino₂ with size := data.length, modified := 0 }) := by
                refine sync_transport inode_id hd₂ ?_ ?_ ?_ hd₂slot
                · rfl
                · rfl
                · exact Or.inr
                    ⟨{ ino₂ with size := data.length, modified := 0 }, rfl⟩
              have hd₃slot : inode_id <
                  (d₂.setSlot inode_id { ino₂ with size := data.length, modified := 0 }).inodes.length →
                  ((d₂.setSlot inode_id { ino₂ with size := data.length, modified := 0 }).inodes.getD
                    inode_id none).isSome = true := by
                intro hx
                show ((d₂.inodes.set inode_id (some _)).getD inode_id
                  none).isSome = true
                rw [getD_set_self (by simpa [Disk.setSlot] using hx)]
                rfl
              split
              · exact hd₃
              · next d₄ hwi =>
                obtain ⟨hd₄, -, -⟩ := write_inode_ok hwi
                apply sync_transport inode_id hd₃ ?_ ?_ ?_ hd₃slot
                · rw [hd₄]
                · rw [hd₄]
                · exact Or.inr ⟨_, by rw [hd₄]⟩

theorem rmChildren_sync {rec : Disk → Nat → Disk × Option Err}
    (hrec : ∀ d c, InodeSync d → InodeSync (rec d c).1) :
    ∀ (cs : List Nat) (d : Disk), InodeSync d →
      InodeSync (rmChildren rec d cs).1 := by
  intro cs
  induction cs with
  | nil => intro d h; exact h
  | cons c cs ih =>
    intro d h
    unfold rmChildren
    cases hx : rec d c with
    | mk d' err =>
      have h' : InodeSync d' := by
        have hh := hrec d c h
        rw [hx] at hh
        exact hh
      cases err with
      | some e => exact h'
      | none => exact ih d' h'

theorem rmRecursive_sync : ∀ (fuel : Nat) (d : Disk) (i : Nat),
    InodeSync d → InodeSync (rmRecursive fuel d i).1 := by
  intro fuel
  induction fuel with
  | zero => intro d i h; exact h
  | succ fuel ih =>
    intro d inode_id h
    unfold rmRecursive
    split
    · exact h
    · exact h
    · next ino heqr =>
      have hstep : InodeSync
          (if ino.type = "dir" then
            rmChildren (rmRecursive fuel) d (ino.children.map Prod.snd)
          else (d, none)).1 := by
        split
        · exact rmChildren_sync (fun d' c h' => ih d' c h')
            (ino.children.map Prod.snd) d h
        · exact h
      split
      · next d₁ e hs =>
        rw [hs] at hstep
        exact hstep
      · next d₁ hs =>
        rw [hs] at hstep
        split
        · exact hstep
        · exact hstep
        · next ino₁ heqr2 =>
          dsimp only []
          obtain ⟨hi_lt, hi_get, hi_len⟩ := read_inode_ok heqr2
          have hfold := foldl_free_block_fields d₁.superblock ino₁.blocks
          have hd₂ : InodeSync
              { d₁ with superblock :=
                  ino₁.blocks.foldl SuperBlock.free_block d₁.superblock } := by
            refine sync_transport inode_id hstep ?_ ?_ (Or.inl rfl) ?_
            · exact hfold.2.2.2
            · exact hfold.1
            · intro _
              exact getD_isSome_of_get? hi_get
          have hi_lt₂ : inode_id <
              ({ d₁ with
                 superblock :=
                   ino₁.blocks.foldl SuperBlock.free_block d₁.superblock } :
                Disk).superblock.max_inodes := by
            show inode_id < (ino₁.blocks.foldl SuperBlock.free_block
              d₁.superblock).max_inodes
            rw [hfold.1]
            exact hi_lt
          split
          · split
            · next e hw =>
              exact absurd ((fin_sync hd₂ hi_lt₂).1.symm.trans hw) (by simp)
            · next d₅ hw =>
              have hh := (fin_sync hd₂ hi_lt₂).1.symm.trans hw
              simp at hh
              subst hh
              exact (fin_sync hd₂ hi_lt₂).2
          · next p hp =>
            split
            · exact hd₂
            · split
              · next e hw =>
                exact absurd ((fin_sync hd₂ hi_lt₂).1.symm.trans hw) (by simp)
              · next d₅ hw =>
                have hh := (fin_sync hd₂ hi_lt₂).1.symm.trans hw
                simp at hh
                subst hh
                exact (fin_sync hd₂ hi_lt₂).2
            · next par heqp =>
              split
              · obtain ⟨hp_lt, hp_get, hp_len⟩ := read_inode_ok heqp
                have hd₃ : InodeSync (Disk.setSlot
                    { d₁ with
                      superblock :=
                        ino₁.blocks.foldl SuperBlock.free_block d₁.superblock }
                    p
                    { par with
                      children := dictErase par.children ino₁.name }) := by
                  refine sync_transport p hd₂ rfl rfl (Or.inr ⟨_, rfl⟩) ?_
                  intro _
                  exact getD_isSome_of_get? hp_get
                split
                · exact hd₃
                · next d₄ hw =>
                  obtain ⟨hd₄eq, -, -⟩ := write_inode_ok hw
                  have hd₄ : InodeSync d₄ := by
                    refine sync_transport p hd₃ ?_ ?_ ?_ ?_
                    · rw [hd₄eq]
                    · rw [hd₄eq]
                    · exact Or.inr ⟨_, by rw [hd₄eq]⟩
                    · intro hx
                      show ((d₁.inodes.set p (some _)).getD p none).isSome =
                        true
                      rw [getD_set_self
                        (show p < d₁.inodes.length from hp_len)]
                      rfl
                  have hi_lt₄ : inode_id < d₄.superblock.max_inodes := by
                    rw [hd₄eq]
                    show inode_id < (ino₁.blocks.foldl SuperBlock.free_block
                      d₁.superblock).max_inodes
                    rw [hfold.1]
                    exact hi_lt
                  split
                  · next e hw2 =>
                    exact absurd ((fin_sync hd₄ hi_lt₄).1.symm.trans hw2)
                      (by simp)
                  · next d₅ hw2 =>
                    have hh := (fin_sync hd₄ hi_lt₄).1.symm.trans hw2
                    simp at hh
                    subst hh
                    exact (fin_sync hd₄ hi_lt₄).2
              · split
                · next e hw =>
                  exact absurd ((fin_sync hd₂ hi_lt₂).1.symm.trans hw)
                    (by simp)
                · next d₅ hw =>
                  have hh := (fin_sync hd₂ hi_lt₂).1.symm.trans hw
                  simp at hh
                  subst hh
                  exact (fin_sync hd₂ hi_lt₂).2

theorem rm_sync {fs : FileSystem} {fuel : Nat} {path : Str} {r : Bool}
    (h : InodeSync fs.disk) : InodeSync (fs.rm fuel path r).1.disk := by
  unfold FileSystem.rm
  split
  · exact h
  · next inode_id heq =>
    split
    · exact h
    · split
      · exact h
      · exact h
      · next ino heqr =>
        split
        · exact h
        · split
          · cases hs : rmRecursive fuel fs.disk inode_id with
            | mk d' e' =>
              have hh := rmRecursive_sync fuel fs.disk inode_id h
              rw [hs] at hh
              exact hh
          · dsimp only []
            obtain ⟨hi_lt, hi_get, hi_len⟩ := read_inode_ok heqr
            have hfold := foldl_free_block_fields fs.disk.superblock ino.blocks
            have hd₁ : InodeSync
                { fs.disk with
                  superblock :=
                    ino.blocks.foldl SuperBlock.free_block
                      fs.disk.superblock } := by
              refine sync_transport inode_id h ?_ ?_ (Or.inl rfl) ?_
              · exact hfold.2.2.2
              · exact hfold.1
              · intro _
                exact getD_isSome_of_get? hi_get
            have hi_lt₁ : inode_id <
                ({ fs.disk with
                   superblock :=
                     ino.blocks.foldl SuperBlock.free_block
                       fs.disk.superblock } :
                  Disk).superblock.max_inodes := by
              show inode_id < (ino.blocks.foldl SuperBlock.free_block
                fs.disk.superblock).max_inodes
              rw [hfold.1]
              exact hi_lt
            split
            · exact hd₁
            · next p hp =>
              split
              · exact hd₁
              · split
                · next e hw =>
                  exact absurd ((fin_sync hd₁ hi_lt₁).1.symm.trans hw)
                    (by simp)
                · next d₅ hw =>
                  have hh := (fin_sync hd₁ hi_lt₁).1.symm.trans hw
                  simp at hh
                  subst hh
                  exact (fin_sync hd₁ hi_lt₁).2
              · next par heqp =>
                split
                · exact hd₁
                · obtain ⟨hp_lt, hp_get, hp_len⟩ := read_inode_ok heqp
                  have hd₂ : InodeSync (Disk.setSlot
                      { fs.disk with
                        superblock :=
                          ino.blocks.foldl SuperBlock.free_block
                            fs.disk.superblock }
                      p
                      { par with
                        children := dictErase par.children ino.name }) := by
                    refine sync_transport p hd₁ rfl rfl (Or.inr ⟨_, rfl⟩) ?_
                    intro _
                    exact getD_isSome_of_get? hp_get
                  split
                  · exact hd₂
                  · next d₃ hw =>
                    obtain ⟨hd₃eq, -, -⟩ := write_inode_ok hw
                    have hd₃ : InodeSync d₃ := by
                      refine sync_transport p hd₂ ?_ ?_ ?_ ?_
                      · rw [hd₃eq]
                      · rw [hd₃eq]
                      · exact Or.inr ⟨_, by rw [hd₃eq]⟩
                      · intro hx
                        show ((fs.disk.inodes.set p (some _)).getD p
                          none).isSome = true
                        rw [getD_set_self
                          (show p < fs.disk.inodes.length from hp_len)]
                        rfl
                    have hi_lt₃ : inode_id < d₃.superblock.max_inodes := by
                      rw [hd₃eq]
                      show inode_id < (ino.blocks.foldl SuperBlock.free_block
                        fs.disk.superblock).max_inodes
                      rw [hfold.1]
                      exact hi_lt
                    split
                    · next e hw2 =>
                      exact absurd ((fin_sync hd₃ hi_lt₃).1.symm.trans hw2)
                        (by simp)
                    · next d₅ hw2 =>
                      have hh := (fin_sync hd₃ hi_lt₃).1.symm.trans hw2
                      simp at hh
                      subst hh
                      exact (fin_sync hd₃ hi_lt₃).2

/-- C9: allocator/storage synchronization invariant — the freshly initialized
volume (root inode written to slot 0 and slot 0 marked used) satisfies "slot `i`
holds a record iff the allocator marks `i` used (`free_inodes[i]` is `False`)",
and every public operation (`mkdir`, `create`, `write`, `read`, `rm` with either
flag, `cd`, `ls`, `pwd`, `stat`, `du`) preserves that property. -/
theorem inode_slot_allocator_sync :
    InodeSync init_filesystem.disk ∧
    ∀ (fuel : Nat) (fs : FileSystem) (op : Op),
      InodeSync fs.disk → InodeSync (applyOp fuel fs op).disk := by
  refine ⟨by decide, ?_⟩
  intro fuel fs op h
  cases op with
  | mkdirOp name => exact mkdir_sync h
  | createOp name => exact create_sync h
  | cdOp path =>
    show InodeSync (fs.cd path).1.disk
    rw [cd_disk]
    exact h
  | writeOp path data => exact write_sync h
  | readOp path => exact h
  | rmOp path r => exact rm_sync h
  | lsOp => exact h
  | pwdOp => exact h
  | statOp path => exact h
  | duOp => exact h

theorem inode_slot_allocator_sync_witness :
    InodeSync (applyOp 10 c5fs (Op.mkdirOp "e".toList)).disk :=
  inode_slot_allocator_sync.2 10 c5fs (Op.mkdirOp "e".toList) (by decide)

theorem get?_some_lt {α : Type} {l : List α} {i : Nat} {a : α}
    (h : l.get? i = some a) : i < l.length := by
  by_contra hc
  rw [List.get?_eq_none.mpr (Nat.le_of_not_lt hc)] at h
  exact absurd h (by simp)

theorem read_inode_of {d : Disk} {i : Nat} {v : Option Inode}
    (hi : i < d.superblock.max_inodes) (hg : d.inodes.get? i = some v) :
    d.read_inode i = .ok v := by
  unfold Disk.read_inode
  rw [if_pos hi, hg]

theorem dictFind?_cons_self (k : Str) (v : Nat) (rest : List (Str × Nat)) :
    dictFind? ((k, v) :: rest) k = some v := by
  unfold dictFind?
  rw [if_pos rfl]

theorem dictErase_cons_self (k : Str) (v : Nat) (rest : List (Str × Nat)) :
    dictErase ((k, v) :: rest) k = rest := by
  unfold dictErase
  rw [if_pos rfl]

theorem foldl_free_block_get?_mem :
    ∀ (l : List Nat) (sb : SuperBlock) (b : Nat), b ∈ l →
    b < sb.max_blocks → b < sb.free_blocks.length →
    (l.foldl SuperBlock.free_block sb).free_blocks.get? b = some true := by
  intro l
  induction l with
  | nil => intro sb b h _ _; simp at h
  | cons x xs ih =>
    intro sb b hmem hmax hlen
    simp only [List.foldl_cons]
    by_cases hx : b ∈ xs
    · apply ih (sb.free_block x) b hx
      · unfold SuperBlock.free_block
        split <;> simpa using hmax
      · unfold SuperBlock.free_block
        split
        · simpa [List.length_set] using hlen
        · exact hlen
    · have hbx : b = x := by
        rcases List.mem_cons.mp hmem with h | h
        · exact h
        · exact absurd h hx
      subst hbx
      rw [foldl_free_block_get?_ne xs (sb.free_block b) b hx]
      rw [free_block_pos hmax]
      show (sb.free_blocks.set b true).get? b = some true
      exact List.get?_set_eq_of_lt _ hlen

theorem count_true_of_pointwise :
    ∀ (S : List Nat) (L L' : List Bool),
    L'.length = L.length → S.Nodup →
    (∀ b ∈ S, L.get? b = some false ∧ L'.get? b = some true) →
    (∀ j, j ∉ S → L'.get? j = L.get? j) →
    L'.count true = L.count true + S.length := by
  intro S
  induction S with
  | nil =>
    intro L L' _ _ _ hout
    have hLL : L' = L := List.ext fun n => hout n (by simp)
    rw [hLL]
    simp
  | cons b S ih =>
    intro L L' hlen hnd hin hout
    obtain ⟨hnb, hS⟩ := List.nodup_cons.mp hnd
    have hb := hin b (by simp)
    have hblt : b < L.length := get?_some_lt hb.1
    have h1 : L'.count true = (L.set b true).count true + S.length := by
      apply ih (L.set b true) L'
      · rw [List.length_set]
        exact hlen
      · exact hS
      · intro c hc
        refine ⟨?_, (hin c (List.mem_cons_of_mem _ hc)).2⟩
        rw [List.get?_set_ne _ _ (fun he : b = c => hnb (he ▸ hc))]
        exact (hin c (List.mem_cons_of_mem _ hc)).1
      · intro j hj
        by_cases hjb : j = b
        · subst hjb
          rw [List.get?_set_eq_of_lt _ hblt]
          exact hb.2
        · rw [List.get?_set_ne _ _ (fun he => hjb he.symm)]
          exact hout j (fun hmem => (List.mem_cons.mp hmem).elim hjb hj)
    rw [h1, count_true_set_true hb.1]
    simp only [List.length_cons]
    omega

mutual
theorem shapeTree_frame : ∀ (t : ITree) (d d' : Disk) (pid : Nat) (nm : Str),
    (∀ j ∈ t.ids, d'.inodes.get? j = d.inodes.get? j) →
    shapeTree d' pid nm t = shapeTree d pid nm t
  | .node i bs cs, d, d', pid, nm, h => by
    unfold shapeTree
    rw [h i (by unfold ITree.ids; exact List.mem_cons_self _ _)]
    cases hg : d.inodes.get? i with
    | none => rfl
    | some o =>
      cases o with
      | none => rfl
      | some ino =>
        dsimp only []
        by_cases hdir : ino.type = "dir"
        · rw [if_pos hdir, if_pos hdir]
          rw [shapeForest_frame cs d d' i ino.children
            (fun j hj => h j (by
              unfold ITree.ids
              exact List.mem_cons_of_mem _ hj))]
        · rw [if_neg hdir, if_neg hdir]
theorem shapeForest_frame : ∀ (ts : ITreeForest) (d d' : Disk) (pid : Nat)
    (l : List (Str × Nat)),
    (∀ j ∈ ITreeForest.ids ts, d'.inodes.get? j = d.inodes.get? j) →
    shapeForest d' pid l ts = shapeForest d pid l ts
  | .nil, _, _, _, l, _ => by
    cases l <;> rfl
  | .cons t ts, d, d', pid, l, h => by
    cases l with
    | nil => rfl
    | cons kv rest =>
      obtain ⟨k, j⟩ := kv
      unfold shapeForest
      rw [shapeTree_frame t d d' pid k
        (fun x hx => h x (by
          unfold ITreeForest.ids
          exact List.mem_append_left _ hx))]
      rw [shapeForest_frame ts d d' pid rest
        (fun x hx => h x (by
          unfold ITreeForest.ids
          exact List.mem_append_right _ hx))]
end

theorem RmOut_trans {d d₁ d₂ : Disk} {ids₁ blocks₁ ids₂ blocks₂ : List Nat}
    {pid : Nat} {P₁ P₂ : Inode}
    (h₁ : RmOut d d₁ ids₁ blocks₁ pid P₁)
    (h₂ : RmOut d₁ d₂ ids₂ blocks₂ pid P₂)
    (hdisj : ∀ j ∈ ids₁, j ∉ ids₂)
    (hdisjB : ∀ b ∈ blocks₁, b ∉ blocks₂)
    (hpid1 : pid ∉ ids₁) :
    RmOut d d₂ (ids₁ ++ ids₂) (blocks₁ ++ blocks₂) pid P₂ := by
  obtain ⟨a1, a2, a3, a4, a5, a6, a7, a8, a9, a10, a11, a12⟩ := h₁
  obtain ⟨b1, b2, b3, b4, b5, b6, b7, b8, b9, b10, b11, b12⟩ := h₂
  refine ⟨b1.trans a1, b2.trans a2, b3.trans a3, b4.trans a4, b5.trans a5,
    b6.trans a6, ?_, ?_, ?_, b10, ?_, ?_⟩
  · intro j hj
    rcases List.mem_append.mp hj with hj1 | hj2
    · have hne : j ≠ pid := fun he => hpid1 (he ▸ hj1)
      refine ⟨?_, ?_⟩
      · rw [b8 j (hdisj j hj1) hne]
        exact (a7 j hj1).1
      · rw [b9 j (hdisj j hj1)]
        exact (a7 j hj1).2
    · exact b7 j hj2
  · intro j hj hne
    have hj1 : j ∉ ids₁ := fun hc => hj (List.mem_append_left _ hc)
    have hj2 : j ∉ ids₂ := fun hc => hj (List.mem_append_right _ hc)
    rw [b8 j hj2 hne]
    exact a8 j hj1 hne
  · intro j hj
    have hj1 : j ∉ ids₁ := fun hc => hj (List.mem_append_left _ hc)
    have hj2 : j ∉ ids₂ := fun hc => hj (List.mem_append_right _ hc)
    rw [b9 j hj2]
    exact a9 j hj1
  · intro b hb
    rcases List.mem_append.mp hb with hb1 | hb2
    · rw [b12 b (hdisjB b hb1)]
      exact a11 b hb1
    · exact b11 b hb2
  · intro b hb
    have hb1 : b ∉ blocks₁ := fun hc => hb (List.mem_append_left _ hc)
    have hb2 : b ∉ blocks₂ := fun hc => hb (List.mem_append_right _ hc)
    rw [b12 b hb2]
    exact a12 b hb1

/-- One full step of `_rm_recursive` at the toplevel node, given the outcome of
the recursion over the children (`hstep`, `hRm`): the re-read, the block frees,
the parent detach, and the final inode free all succeed, and the combined effect
is `RmOut` for the node together with its children. -/
theorem rmRecursive_tail {f : Nat} {d d₁ : Disk} {i pid : Nat} {nm : Str}
    {ino₀ ino₁ par : Inode} {ids₀ blocks₀ : List Nat}
    (hread : d.read_inode i = .ok (some ino₀))
    (hstep : (if ino₀.type = "dir" then
        rmChildren (rmRecursive f) d (ino₀.children.map Prod.snd)
      else (d, none)) = (d₁, none))
    (hRm : RmOut d d₁ ids₀ blocks₀ i ino₁)
    (hsync : InodeSync d)
    (hblen : d.superblock.free_blocks.length = d.superblock.max_blocks)
    (hpar : ino₁.parent = some pid)
    (hnm : ino₁.name = nm)
    (hpd : d.inodes.get? pid = some (some par))
    (hpid_ne : pid ≠ i) (hpid_nin : pid ∉ ids₀) (hi_nin : i ∉ ids₀)
    (hfind : dictFind? par.children nm = some i)
    (hbsmark : ∀ b ∈ ino₁.blocks,
      d.superblock.free_blocks.get? b = some false)
    (hbsdisj : ∀ b ∈ ino₁.blocks, b ∉ blocks₀) :
    ∃ d', rmRecursive (f + 1) d i = (d', none) ∧
      RmOut d d' (i :: ids₀) (ino₁.blocks ++ blocks₀) pid
        { par with children := dictErase par.children nm } := by
  subst hnm
  obtain ⟨hmaxI, hmaxB, hbsz, hlenI, hlenFi, hlenFb, hids, houtI, houtFi,
    hpidI, hinB, houtB⟩ := hRm
  obtain ⟨hilt, higet, hilen⟩ := read_inode_ok hread
  have hsb := foldl_free_block_fields d₁.superblock ino₁.blocks
  have hsblen := foldl_free_block_length d₁.superblock ino₁.blocks
  have hre : d₁.read_inode i = .ok (some ino₁) :=
    read_inode_of (by rw [hmaxI]; exact hilt) hpidI
  have hpd₁ : d₁.inodes.get? pid = some (some par) := by
    rw [houtI pid hpid_nin hpid_ne]
    exact hpd
  have hplt : pid < d.superblock.max_inodes := by
    rw [← hsync.1]
    exact get?_some_lt hpd
  have hplen : pid < d.inodes.length := get?_some_lt hpd
  have hp₂ :
      ({ superblock := ino₁.blocks.foldl SuperBlock.free_block d₁.superblock,
         inodes := d₁.inodes,
         blocks := d₁.blocks } : Disk).read_inode pid = .ok (some par) := by
    apply read_inode_of
    · show pid <
        (ino₁.blocks.foldl SuperBlock.free_block d₁.superblock).max_inodes
      rw [hsb.1, hmaxI]
      exact hplt
    · exact hpd₁
  have hw₁ := @write_inode_ok_of
    { superblock := ino₁.blocks.foldl SuperBlock.free_block d₁.superblock,
      inodes := d₁.inodes.set pid (some { par with children := dictErase par.children ino₁.name }),
      blocks := d₁.blocks }
    pid
    (by
      show pid <
        (ino₁.blocks.foldl SuperBlock.free_block d₁.superblock).max_inodes
      rw [hsb.1, hmaxI]
      exact hplt)
    (by
      show pid < (d₁.inodes.set pid
        (some { par with children := dictErase par.children ino₁.name })).length
      rw [List.length_set, hlenI]
      exact hplen)
    (some { par with children := dictErase par.children ino₁.name })
  have hw₂ := @write_inode_ok_of
    { superblock := (ino₁.blocks.foldl SuperBlock.free_block d₁.superblock).free_inode i,
      inodes := d₁.inodes.set pid (some { par with children := dictErase par.children ino₁.name }),
      blocks := d₁.blocks }
    i
    (by
      show i < ((ino₁.blocks.foldl SuperBlock.free_block
        d₁.superblock).free_inode i).max_inodes
      rw [(free_inode_fields _ i).1, hsb.1, hmaxI]
      exact hilt)
    (by
      show i < (d₁.inodes.set pid _).length
      rw [List.length_set, hlenI]
      exact hilen)
    none
  have heqn : rmRecursive (f + 1) d i =
      ({ superblock := (ino₁.blocks.foldl SuperBlock.free_block d₁.superblock).free_inode i,
         inodes := (d₁.inodes.set pid (some { par with children := dictErase par.children ino₁.name })).set i none,
         blocks := d₁.blocks }, none) := by
    unfold rmRecursive
    split
    · next e heq => exact absurd (hread.symm.trans heq) (by simp)
    · next heq => exact absurd (hread.symm.trans heq) (by simp)
    · next ino₀' heq =>
      have hh := hread.symm.trans heq
      simp at hh
      subst hh
      split
      · next d₁' e heq2 => exact absurd (hstep.symm.trans heq2) (by simp)
      · next d₁' heq2 =>
        have hh2 := hstep.symm.trans heq2
        simp at hh2
        subst hh2
        split
        · next e heq3 => exact absurd (hre.symm.trans heq3) (by simp)
        · next heq3 => exact absurd (hre.symm.trans heq3) (by simp)
        · next ino₁' heq3 =>
          have hh3 := hre.symm.trans heq3
          simp at hh3
          subst hh3
          dsimp only []
          rw [hpar]
          dsimp only []
          split
          · next e heq4 => exact absurd (hp₂.symm.trans heq4) (by simp)
          · next heq4 => exact absurd (hp₂.symm.trans heq4) (by simp)
          · next par0 heq4 =>
            have hh4 := hp₂.symm.trans heq4
            simp at hh4
            subst hh4
            rw [if_pos
              (show (dictFind? par.children ino₁.name).isSome = true by
                rw [hfind]
                rfl)]
            split
            · next e heq5 => exact absurd (hw₁.symm.trans heq5) (by simp)
            · next d₄ heq5 =>
              have hh5 := hw₁.symm.trans heq5
              simp at hh5
              subst hh5
              split
              · next e heq6 => exact absurd (hw₂.symm.trans heq6) (by simp)
              · next d₅ heq6 =>
                have hh6 := hw₂.symm.trans heq6
                simp at hh6
                subst hh6
                rfl
  refine ⟨_, heqn, ?_⟩
  have hffi := free_inode_fields (ino₁.blocks.foldl SuperBlock.free_block d₁.superblock) i
  have hfi_pos : (ino₁.blocks.foldl SuperBlock.free_block d₁.superblock).free_inode i =
      { (ino₁.blocks.foldl SuperBlock.free_block d₁.superblock) with free_inodes := (ino₁.blocks.foldl SuperBlock.free_block d₁.superblock).free_inodes.set i true } := by
    unfold SuperBlock.free_inode
    rw [if_pos (by rw [hsb.1, hmaxI]; exact hilt)]
  have hiFi : i < (ino₁.blocks.foldl SuperBlock.free_block d₁.superblock).free_inodes.length := by
    rw [show (ino₁.blocks.foldl SuperBlock.free_block d₁.superblock).free_inodes = d₁.superblock.free_inodes from hsb.2.2.2,
      hlenFi, hsync.2.1]
    exact hilt
  refine ⟨?_, ?_, ?_, ?_, ?_, ?_, ?_, ?_, ?_, ?_, ?_, ?_⟩
  · show ((ino₁.blocks.foldl SuperBlock.free_block d₁.superblock).free_inode i).max_inodes = d.superblock.max_inodes
    rw [hffi.1, hsb.1, hmaxI]
  · show ((ino₁.blocks.foldl SuperBlock.free_block d₁.superblock).free_inode i).max_blocks = d.superblock.max_blocks
    rw [hffi.2.1, hsb.2.1, hmaxB]
  · show ((ino₁.blocks.foldl SuperBlock.free_block d₁.superblock).free_inode i).block_size = d.superblock.block_size
    rw [hffi.2.2.1, hsb.2.2.1, hbsz]
  · show ((d₁.inodes.set pid (some { par with children := dictErase par.children ino₁.name })).set i none).length = d.inodes.length
    simp only [List.length_set]
    exact hlenI
  · show ((ino₁.blocks.foldl SuperBlock.free_block d₁.superblock).free_inode i).free_inodes.length =
      d.superblock.free_inodes.length
    rw [hfi_pos]
    show ((ino₁.blocks.foldl SuperBlock.free_block d₁.superblock).free_inodes.set i true).length = d.superblock.free_inodes.length
    rw [List.length_set, hsb.2.2.2]
    exact hlenFi
  · show ((ino₁.blocks.foldl SuperBlock.free_block d₁.superblock).free_inode i).free_blocks.length =
      d.superblock.free_blocks.length
    rw [hffi.2.2.2.1, hsblen]
    exact hlenFb
  · intro j hj
    rcases List.mem_cons.mp hj with rfl | hj₀
    · constructor
      · show ((d₁.inodes.set pid (some { par with children := dictErase par.children ino₁.name })).set j none).get? j = some none
        exact List.get?_set_eq_of_lt _
          (by rw [List.length_set, hlenI]; exact hilen)
      · show ((ino₁.blocks.foldl SuperBlock.free_block d₁.superblock).free_inode j).free_inodes.get? j = some true
        rw [hfi_pos]
        show ((ino₁.blocks.foldl SuperBlock.free_block d₁.superblock).free_inodes.set j true).get? j = some true
        exact List.get?_set_eq_of_lt _ hiFi
    · have hji : j ≠ i := fun he => hi_nin (he ▸ hj₀)
      have hjp : j ≠ pid := fun he => hpid_nin (he ▸ hj₀)
      constructor
      · show ((d₁.inodes.set pid (some { par with children := dictErase par.children ino₁.name })).set i none).get? j = some none
        rw [List.get?_set_ne _ _ (fun he : i = j => hji he.symm)]
        rw [List.get?_set_ne _ _ (fun he : pid = j => hjp he.symm)]
        exact (hids j hj₀).1
      · show ((ino₁.blocks.foldl SuperBlock.free_block d₁.superblock).free_inode i).free_inodes.get? j = some true
        rw [hfi_pos]
        show ((ino₁.blocks.foldl SuperBlock.free_block d₁.superblock).free_inodes.set i true).get? j = some true
        rw [List.get?_set_ne _ _ (fun he : i = j => hji he.symm)]
        rw [hsb.2.2.2]
        exact (hids j hj₀).2
  · intro j hj hne
    have hji : j ≠ i := fun he => hj (he ▸ List.mem_cons_self i ids₀)
    have hj₀ : j ∉ ids₀ := fun hc => hj (List.mem_cons_of_mem _ hc)
    show ((d₁.inodes.set pid (some { par with children := dictErase par.children ino₁.name })).set i none).get? j = d.inodes.get? j
    rw [List.get?_set_ne _ _ (fun he : i = j => hji he.symm)]
    rw [List.get?_set_ne _ _ (fun he : pid = j => hne he.symm)]
    exact houtI j hj₀ hji
  · intro j hj
    have hji : j ≠ i := fun he => hj (he ▸ List.mem_cons_self i ids₀)
    have hj₀ : j ∉ ids₀ := fun hc => hj (List.mem_cons_of_mem _ hc)
    show ((ino₁.blocks.foldl SuperBlock.free_block d₁.superblock).free_inode i).free_inodes.get? j =
      d.superblock.free_inodes.get? j
    rw [hfi_pos]
    show ((ino₁.blocks.foldl SuperBlock.free_block d₁.superblock).free_inodes.set i true).get? j =
      d.superblock.free_inodes.get? j
    rw [List.get?_set_ne _ _ (fun he : i = j => hji he.symm)]
    rw [hsb.2.2.2]
    exact houtFi j hj₀
  · show ((d₁.inodes.set pid (some { par with children := dictErase par.children ino₁.name })).set i none).get? pid =
      some (some { par with children := dictErase par.children ino₁.name })
    rw [List.get?_set_ne _ _ (fun he : i = pid => hpid_ne he.symm)]
    exact List.get?_set_eq_of_lt _ (by rw [hlenI]; exact hplen)
  · intro b hb
    show ((ino₁.blocks.foldl SuperBlock.free_block d₁.superblock).free_inode i).free_blocks.get? b = some true
    rw [hffi.2.2.2.1]
    rcases List.mem_append.mp hb with hb1 | hb2
    · apply foldl_free_block_get?_mem ino₁.blocks d₁.superblock b hb1
      · rw [hmaxB, ← hblen]
        exact get?_some_lt (hbsmark b hb1)
      · rw [hlenFb]
        exact get?_some_lt (hbsmark b hb1)
    · rw [foldl_free_block_get?_ne ino₁.blocks d₁.superblock b
        (fun hc => hbsdisj b hc hb2)]
      exact hinB b hb2
  · intro b hb
    have hb1 : b ∉ ino₁.blocks := fun hc => hb (List.mem_append_left _ hc)
    have hb2 : b ∉ blocks₀ := fun hc => hb (List.mem_append_right _ hc)
    show ((ino₁.blocks.foldl SuperBlock.free_block d₁.superblock).free_inode i).free_blocks.get? b =
      d.superblock.free_blocks.get? b
    rw [hffi.2.2.2.1, foldl_free_block_get?_ne ino₁.blocks d₁.superblock b hb1]
    exact houtB b hb2

mutual
/-- `_rm_recursive` on a stored subtree: it succeeds and its combined effect is
exactly `RmOut` — the subtree's slots are cleared and freed, its blocks freed,
the parent entry erased, and nothing else is touched. -/
theorem rmRecursive_spec : ∀ (t : ITree) (fuel : Nat) (d : Disk) (pid : Nat)
    (nm : Str) (par : Inode),
    t.height ≤ fuel →
    InodeSync d →
    d.superblock.free_blocks.length = d.superblock.max_blocks →
    shapeTree d pid nm t = true →
    t.ids.Nodup →
    pid ∉ t.ids →
    d.inodes.get? pid = some (some par) →
    dictFind? par.children nm = some t.rootId →
    t.allBlocks.Nodup →
    (∀ b ∈ t.allBlocks, d.superblock.free_blocks.get? b = some false) →
    ∃ d', rmRecursive fuel d t.rootId = (d', none) ∧
      RmOut d d' t.ids t.allBlocks pid
        { par with children := dictErase par.children nm }
  | .node i bs cs, fuel, d, pid, nm, par, hfuel, hsync, hblen, hshape, hnd,
      hpid, hpd, hfind, hbnd, hbmark => by
    simp only [ITree.rootId] at hfind ⊢
    simp only [ITree.ids] at hnd hpid ⊢
    simp only [ITree.allBlocks] at hbnd hbmark ⊢
    simp only [ITree.height] at hfuel
    cases fuel with
    | zero => exact absurd hfuel (by omega)
    | succ f =>
      unfold shapeTree at hshape
      cases hg : d.inodes.get? i with
      | none => rw [hg] at hshape; exact absurd hshape (by simp)
      | some o =>
        cases o with
        | none => rw [hg] at hshape; exact absurd hshape (by simp)
        | some ino =>
          rw [hg] at hshape
          simp only [Bool.and_eq_true, decide_eq_true_eq] at hshape
          obtain ⟨⟨⟨hbl, hparent⟩, hname⟩, hbranch⟩ := hshape
          obtain ⟨hi_nin, hndcs⟩ := List.nodup_cons.mp hnd
          have hpid_ne : pid ≠ i :=
            fun he => hpid (he ▸ List.mem_cons_self i (ITreeForest.ids cs))
          have hpid_nin : pid ∉ ITreeForest.ids cs :=
            fun hc => hpid (List.mem_cons_of_mem _ hc)
          have hread : d.read_inode i = .ok (some ino) :=
            read_inode_of (by rw [← hsync.1]; exact get?_some_lt hg) hg
          by_cases hdir : ino.type = "dir"
          · rw [if_pos hdir] at hbranch
            simp only [Bool.and_eq_true, decide_eq_true_eq] at hbranch
            obtain ⟨⟨hbs0, hkeys⟩, hfor⟩ := hbranch
            subst hbs0
            simp only [List.nil_append] at hbnd hbmark ⊢
            obtain ⟨d₁, heq₁, hRm₁⟩ := rmChildren_spec cs f d i ino.children
              ino (by omega) hsync hblen hfor hkeys hndcs hi_nin hg rfl hbnd
              hbmark
            have hstep : (if ino.type = "dir" then
                rmChildren (rmRecursive f) d (ino.children.map Prod.snd)
              else (d, none)) = (d₁, none) := by
              rw [if_pos hdir]
              exact heq₁
            obtain ⟨d', heq', hout'⟩ := rmRecursive_tail hread hstep hRm₁
              hsync hblen
              (show ({ ino with children := [] } : Inode).parent = some pid
                from hparent)
              (show ({ ino with children := [] } : Inode).name = nm
                from hname)
              hpd hpid_ne hpid_nin hi_nin hfind
              (by
                intro b hb
                rw [show ({ ino with children := [] } : Inode).blocks = []
                  from hbl] at hb
                exact absurd hb (List.not_mem_nil b))
              (by
                intro b hb
                rw [show ({ ino with children := [] } : Inode).blocks = []
                  from hbl] at hb
                exact absurd hb (List.not_mem_nil b))
            refine ⟨d', heq', ?_⟩
            rw [show ({ ino with children := [] } : Inode).blocks = []
              from hbl] at hout'
            simp only [List.nil_append] at hout'
            exact hout'
          · rw [if_neg hdir] at hbranch
            cases cs with
            | cons t' ts' => simp [ITreeForest.isNil] at hbranch
            | nil =>
              simp only [ITreeForest.ids, ITreeForest.allBlocks,
                List.append_nil] at hbnd hbmark ⊢
              have hRm₀ : RmOut d d [] [] i ino :=
                ⟨rfl, rfl, rfl, rfl, rfl, rfl,
                 fun j hj => absurd hj (List.not_mem_nil j),
                 fun j _ _ => rfl,
                 fun j _ => rfl,
                 hg,
                 fun b hb => absurd hb (List.not_mem_nil b),
                 fun b _ => rfl⟩
              obtain ⟨d', heq', hout'⟩ := rmRecursive_tail hread
                (show (if ino.type = "dir" then
                    rmChildren (rmRecursive f) d (ino.children.map Prod.snd)
                  else (d, none)) = (d, none) by rw [if_neg hdir])
                hRm₀ hsync hblen hparent hname hpd
                hpid_ne (List.not_mem_nil pid) (List.not_mem_nil i) hfind
                (by
                  intro b hb
                  rw [hbl] at hb
                  exact hbmark b hb)
                (fun b _ => List.not_mem_nil b)
              refine ⟨d', heq', ?_⟩
              rw [hbl] at hout'
              simp only [List.append_nil] at hout'
              exact hout'
/-- `_rm_recursive`'s loop over a directory's captured children list: each child
removes itself and detaches its name from the (live) parent inode; the combined
effect is `RmOut` with the parent's children map emptied. -/
theorem rmChildren_spec : ∀ (ts : ITreeForest) (fuel : Nat) (d : Disk)
    (pid : Nat) (rest : List (Str × Nat)) (P : Inode),
    ITreeForest.height ts ≤ fuel →
    InodeSync d →
    d.superblock.free_blocks.length = d.superblock.max_blocks →
    shapeForest d pid rest ts = true →
    (rest.map Prod.fst).Nodup →
    (ITreeForest.ids ts).Nodup →
    pid ∉ ITreeForest.ids ts →
    d.inodes.get? pid = some (some P) →
    P.children = rest →
    (ITreeForest.allBlocks ts).Nodup →
    (∀ b ∈ ITreeForest.allBlocks ts,
      d.superblock.free_blocks.get? b = some false) →
    ∃ d', rmChildren (rmRecursive fuel) d (rest.map Prod.snd) = (d', none) ∧
      RmOut d d' (ITreeForest.ids ts) (ITreeForest.allBlocks ts) pid
        { P with children := [] }
  | .nil, fuel, d, pid, rest, P, _, _, _, hshape, _, _, _, hpd, hPc, _,
      _ => by
    cases rest with
    | cons kv rest' =>
      exact absurd hshape (by cases kv; simp [shapeForest])
    | nil =>
      refine ⟨d, rfl, rfl, rfl, rfl, rfl, rfl, rfl, ?_, ?_, ?_, ?_, ?_, ?_⟩
      · intro j hj
        exact absurd hj (by simp [ITreeForest.ids])
      · intro j _ _
        rfl
      · intro j _
        rfl
      · rw [show ({ P with children := [] } : Inode) = P from by rw [← hPc]]
        exact hpd
      · intro b hb
        exact absurd hb (by simp [ITreeForest.allBlocks])
      · intro b _
        rfl
  | .cons t ts, fuel, d, pid, rest, P, hfuel, hsync, hblen, hshape, hkeys,
      hnd, hpid, hpd, hPc, hbnd, hbmark => by
    cases rest with
    | nil => exact absurd hshape (by simp [shapeForest])
    | cons kv rest' =>
      obtain ⟨k, j⟩ := kv
      simp only [shapeForest, Bool.and_eq_true, decide_eq_true_eq] at hshape
      obtain ⟨⟨hj, hsh1⟩, hsh2⟩ := hshape
      subst hj
      simp only [ITreeForest.ids] at hnd hpid ⊢
      simp only [ITreeForest.allBlocks] at hbnd hbmark ⊢
      simp only [ITreeForest.height] at hfuel
      have hkeys' : (rest'.map Prod.fst).Nodup :=
        (List.nodup_cons.mp (by simpa only [List.map_cons] using hkeys)).2
      obtain ⟨hndt, hndts, hdisjI⟩ := List.nodup_append.mp hnd
      have hpid_t : pid ∉ t.ids := fun hc => hpid (List.mem_append_left _ hc)
      have hpid_ts : pid ∉ ITreeForest.ids ts := fun hc =>
        hpid (List.mem_append_right _ hc)
      obtain ⟨hbndt, hbndts, hdisjB⟩ := List.nodup_append.mp hbnd
      obtain ⟨d₁, heq₁, hRm₁⟩ := rmRecursive_spec t fuel d pid k P
        (le_trans (le_max_left _ _) hfuel)
        hsync hblen hsh1 hndt hpid_t hpd
        (by rw [hPc]; exact dictFind?_cons_self k t.rootId rest')
        hbndt
        (fun b hb => hbmark b (List.mem_append_left _ hb))
      have hera : dictErase P.children k = rest' := by
        rw [hPc]
        exact dictErase_cons_self k t.rootId rest'
      rw [hera] at hRm₁
      obtain ⟨a1, a2, a3, a4, a5, a6, a7, a8, a9, a10, a11, a12⟩ :=
        And.intro hRm₁ trivial |>.1
      have hsync₁ : InodeSync d₁ := by
        have hh := rmRecursive_sync fuel d t.rootId hsync
        rw [heq₁] at hh
        exact hh
      have hblen₁ : d₁.superblock.free_blocks.length =
          d₁.superblock.max_blocks := by
        rw [a6, a2]
        exact hblen
      have hsh2' : shapeForest d₁ pid rest' ts = true := by
        rw [shapeForest_frame ts d d₁ pid rest'
          (fun x hx => a8 x (fun hc => hdisjI hc hx)
            (fun he => hpid_ts (he ▸ hx)))]
        exact hsh2
      have hmark₁ : ∀ b ∈ ITreeForest.allBlocks ts,
          d₁.superblock.free_blocks.get? b = some false := by
        intro b hb
        rw [a12 b (fun hc => hdisjB hc hb)]
        exact hbmark b (List.mem_append_right _ hb)
      obtain ⟨d₂, heq₂, hRm₂⟩ := rmChildren_spec ts fuel d₁ pid rest'
        { P with children := rest' }
        (le_trans (le_max_right _ _) hfuel)
        hsync₁ hblen₁ hsh2' hkeys' hndts hpid_ts a10 rfl hbndts hmark₁
      refine ⟨d₂, ?_, ?_⟩
      · show rmChildren (rmRecursive fuel) d (t.rootId :: rest'.map Prod.snd) =
          (d₂, none)
        unfold rmChildren
        split
        · next d₁' e heqx => exact absurd (heq₁.symm.trans heqx) (by simp)
        · next d₁' heqx =>
          have hhx := heq₁.symm.trans heqx
          simp at hhx
          subst hhx
          exact heq₂
      · exact RmOut_trans hRm₁ hRm₂ (fun x hx hc => hdisjI hx hc)
          (fun b hb hc => hdisjB hb hc) hpid_t
end

/-- C4: for a path resolving to a non-root directory whose stored subtree is
described by `t` (containing `t.ids.length` allocated inodes and whose files
hold the blocks `t.allBlocks`), `rm(path, recursive := true)` succeeds,
increases the free-inode count by exactly the subtree inode count, increases
the free-block count by exactly the subtree block count, detaches the target
from its parent's children map, and writes `None` into every freed inode
slot. -/
theorem rm_recursive_frees_subtree
    {fs : FileSystem} {fuel : Nat} {path : Str} {t : ITree} {pid : Nat}
    {nm : Str} {par ino : Inode}
    (hsync : InodeSync fs.disk)
    (hblen : fs.disk.superblock.free_blocks.length =
      fs.disk.superblock.max_blocks)
    (hres : fs.resolve path = .ok t.rootId)
    (hroot : t.rootId ≠ 0)
    (hpath : path ≠ ['/'])
    (hgroot : fs.disk.inodes.get? t.rootId = some (some ino))
    (hdir : ino.type = "dir")
    (hshape : shapeTree fs.disk pid nm t = true)
    (hnd : t.ids.Nodup) (hpid : pid ∉ t.ids)
    (hpd : fs.disk.inodes.get? pid = some (some par))
    (hfind : dictFind? par.children nm = some t.rootId)
    (hbnd : t.allBlocks.Nodup)
    (hbmark : ∀ b ∈ t.allBlocks,
      fs.disk.superblock.free_blocks.get? b = some false)
    (hused : ∀ j ∈ t.ids, fs.disk.superblock.free_inodes.get? j = some false)
    (hfuel : t.height ≤ fuel) :
    ∃ d', fs.rm fuel path true = ({ fs with disk := d' }, none) ∧
      d'.superblock.get_free_inode_count =
        fs.disk.superblock.get_free_inode_count + t.ids.length ∧
      d'.superblock.get_free_block_count =
        fs.disk.superblock.get_free_block_count + t.allBlocks.length ∧
      d'.inodes.get? pid =
        some (some { par with children := dictErase par.children nm }) ∧
      ∀ j ∈ t.ids, d'.inodes.get? j = some none := by
  obtain ⟨d', heq', hRm⟩ := rmRecursive_spec t fuel fs.disk pid nm par hfuel
    hsync hblen hshape hnd hpid hpd hfind hbnd hbmark
  obtain ⟨a1, a2, a3, a4, a5, a6, a7, a8, a9, a10, a11, a12⟩ :=
    And.intro hRm trivial |>.1
  have hreadRoot : fs.disk.read_inode t.rootId = .ok (some ino) :=
    read_inode_of (by rw [← hsync.1]; exact get?_some_lt hgroot) hgroot
  refine ⟨d', ?_, ?_, ?_, a10, fun j hj => (a7 j hj).1⟩
  · unfold FileSystem.rm
    split
    · next e heq => exact absurd (hres.symm.trans heq) (by simp)
    · next inode_id heq =>
      have hh := hres.symm.trans heq
      simp at hh
      subst hh
      rw [if_neg (by
        rintro (hc | hc)
        · exact hroot hc
        · exact hpath hc)]
      split
      · next e heq2 => exact absurd (hreadRoot.symm.trans heq2) (by simp)
      · next heq2 => exact absurd (hreadRoot.symm.trans heq2) (by simp)
      · next ino' heq2 =>
        have hh2 := hreadRoot.symm.trans heq2
        simp at hh2
        subst hh2
        rw [if_neg (fun hc => absurd hc.2.2 (by simp))]
        rw [if_pos rfl]
        rw [heq']
  · show d'.superblock.free_inodes.count true =
      fs.disk.superblock.free_inodes.count true + t.ids.length
    exact count_true_of_pointwise t.ids fs.disk.superblock.free_inodes
      d'.superblock.free_inodes a5 hnd
      (fun b hb => ⟨hused b hb, (a7 b hb).2⟩) a9
  · show d'.superblock.free_blocks.count true =
      fs.disk.superblock.free_blocks.count true + t.allBlocks.length
    exact count_true_of_pointwise t.allBlocks fs.disk.superblock.free_blocks
      d'.superblock.free_blocks a6 hbnd
      (fun b hb => ⟨hbmark b hb, a11 b hb⟩) a12

theorem rm_recursive_frees_subtree_witness :
    ∃ d', c4fs.rm 10 "/d".toList true = ({ c4fs with disk := d' }, none) ∧
      d'.superblock.get_free_inode_count =
        c4fs.disk.superblock.get_free_inode_count +
          (ITree.ids c4tree).length ∧
      d'.superblock.get_free_block_count =
        c4fs.disk.superblock.get_free_block_count +
          (ITree.allBlocks c4tree).length ∧
      d'.inodes.get? 0 = some (some
        { name := ['/'], type := "dir", parent := none, size := 0,
          blocks := [],
          children := dictErase [("d".toList, 1)] "d".toList, created := 0,
          modified := 0, permissions := 493 }) ∧
      ∀ j ∈ ITree.ids c4tree, d'.inodes.get? j = some none :=
  @rm_recursive_frees_subtree c4fs 10 "/d".toList c4tree 0 "d".toList
    { name := ['/'], type := "dir", parent := none, size := 0, blocks := [],
      children := [("d".toList, 1)], created := 0, modified := 0,
      permissions := 493 }
    { name := ['d'], type := "dir", parent := some 0, size := 0, blocks := [],
      children := [("f".toList, 2)], created := 0, modified := 0,
      permissions := 493 }
    (by decide) (by decide) (by decide) (by decide) (by decide) (by decide)
    (by decide) (by decide) (by decide) (by decide) (by decide) (by decide)
    (by decide) (by decide) (by decide) (by decide)

end VFS